import Mathlib

/-!
# MonteCarloSimulator.js: a shallow embedding

The component `src/MonteCarloSimulator.js` parses free-form text into at most 100 numbers,
summarises them, and resamples them by Monte Carlo draws.

Numbers.  A JavaScript number is modelled by `JSNum`: an exact rational (`fin q`), the two
infinities, or `NaN`.  Arithmetic on finite values is exact (no rounding, no overflow, no
signed zero: a zero divisor counts as `+0`); the special values follow IEEE 754 as ECMAScript
prescribes.  `Math.sqrt`, `Math.log` and `Math.cos` are exact on the special arguments ECMAScript
fixes and otherwise delegate to the functions of a `MathFns` record.

Strings are lists of characters.  `Math.random()` is a stream `rand : Nat → ℚ`; a counter of the
calls made so far is threaded through every function that draws.
-/

namespace MonteCarlo

/-! ## Numbers -/

/-- A JavaScript number: an exact finite value, an infinity, or NaN. -/
inductive JSNum where
  | fin (q : ℚ)
  | pinf
  | ninf
  | nan
  deriving DecidableEq

namespace JSNum

/-- Unary minus. -/
def neg : JSNum → JSNum
  | fin q => fin (-q)
  | pinf => ninf
  | ninf => pinf
  | nan => nan

/-- The operator `+` on numbers. -/
def add : JSNum → JSNum → JSNum
  | fin a, fin b => fin (a + b)
  | fin _, pinf => pinf
  | fin _, ninf => ninf
  | pinf, fin _ => pinf
  | pinf, pinf => pinf
  | ninf, fin _ => ninf
  | ninf, ninf => ninf
  | _, _ => nan

/-- The operator `-` on numbers. -/
def sub (a b : JSNum) : JSNum := add a (neg b)

/-- An infinity of the sign of `q`, or NaN when `q` is zero (`∞ * 0`). -/
def infTimes (positive : Bool) (q : ℚ) : JSNum :=
  if q = 0 then nan else if (0 < q) = positive then pinf else ninf

/-- The operator `*` on numbers. -/
def mul : JSNum → JSNum → JSNum
  | fin a, fin b => fin (a * b)
  | fin a, pinf => infTimes true a
  | fin a, ninf => infTimes false a
  | pinf, fin b => infTimes true b
  | ninf, fin b => infTimes false b
  | pinf, pinf => pinf
  | pinf, ninf => ninf
  | ninf, pinf => ninf
  | ninf, ninf => pinf
  | _, _ => nan

/-- The operator `/` on numbers; a zero divisor is `+0`. -/
def div : JSNum → JSNum → JSNum
  | fin a, fin b =>
    if b = 0 then (if a = 0 then nan else if 0 < a then pinf else ninf) else fin (a / b)
  | fin _, pinf => fin 0
  | fin _, ninf => fin 0
  | pinf, fin b => if 0 ≤ b then pinf else ninf
  | ninf, fin b => if 0 ≤ b then ninf else pinf
  | _, _ => nan

/-- The operator `<` on numbers: false as soon as one side is NaN. -/
def lt : JSNum → JSNum → Bool
  | fin a, fin b => decide (a < b)
  | fin _, pinf => true
  | ninf, fin _ => true
  | ninf, pinf => true
  | _, _ => false

/-- The operator `<=` on numbers: false as soon as one side is NaN. -/
def le : JSNum → JSNum → Bool
  | fin a, fin b => decide (a ≤ b)
  | fin _, pinf => true
  | ninf, fin _ => true
  | ninf, pinf => true
  | pinf, pinf => true
  | ninf, ninf => true
  | _, _ => false

/-- The global function `isNaN` on a number. -/
def isNaN : JSNum → Bool
  | nan => true
  | _ => false

/-- The global function `isFinite` on a number. -/
def isFinite : JSNum → Bool
  | fin _ => true
  | _ => false

/-- An integer as a number. -/
def ofInt (z : Int) : JSNum := fin (z : ℚ)

/-- A natural number as a number. -/
def ofNat (n : Nat) : JSNum := fin (n : ℚ)

end JSNum

/-- The real functions behind `Math.sqrt`, `Math.log`, `Math.cos` and the constant `Math.PI`,
on the arguments where ECMAScript leaves the value to the implementation. -/
structure MathFns where
  sqrt : ℚ → ℚ
  log : ℚ → ℚ
  cos : ℚ → ℚ
  PI : ℚ

/-- The function `Math.max` of two arguments. -/
def mathMax (a b : JSNum) : JSNum :=
  if a.isNaN || b.isNaN then JSNum.nan else if a.lt b then b else a

/-- The function `Math.min` of two arguments. -/
def mathMin (a b : JSNum) : JSNum :=
  if a.isNaN || b.isNaN then JSNum.nan else if b.lt a then b else a

/-- The function `Math.floor`. -/
def mathFloor : JSNum → JSNum
  | JSNum.fin q => JSNum.fin (⌊q⌋ : ℚ)
  | x => x

/-- The call `Math.pow(x, 2)`. -/
def mathPow2 (x : JSNum) : JSNum := JSNum.mul x x

/-- The function `Math.sqrt`: NaN below zero, exact at `0` and `+∞`. -/
def mathSqrt (M : MathFns) : JSNum → JSNum
  | JSNum.fin q => if q < 0 then JSNum.nan else if q = 0 then JSNum.fin 0 else JSNum.fin (M.sqrt q)
  | JSNum.pinf => JSNum.pinf
  | _ => JSNum.nan

/-- The function `Math.log`: NaN below zero, `-∞` at `0`, exact at `1` and `+∞`. -/
def mathLog (M : MathFns) : JSNum → JSNum
  | JSNum.fin q =>
    if q < 0 then JSNum.nan else if q = 0 then JSNum.ninf
    else if q = 1 then JSNum.fin 0 else JSNum.fin (M.log q)
  | JSNum.pinf => JSNum.pinf
  | _ => JSNum.nan

/-- The function `Math.cos`: exact at `0`, NaN at an infinity. -/
def mathCos (M : MathFns) : JSNum → JSNum
  | JSNum.fin q => if q = 0 then JSNum.fin 1 else JSNum.fin (M.cos q)
  | _ => JSNum.nan

/-! ## Strings -/

/-- White space and line terminators, as `String.prototype.trim` and `parseFloat` skip them. -/
def isJSWhite (c : Char) : Bool :=
  decide (c.toNat ∈ [9, 10, 11, 12, 13, 32, 160, 5760, 8232, 8233, 8239, 8287, 12288, 65279])
    || (decide (8192 ≤ c.toNat) && decide (c.toNat ≤ 8202))

/-- The method `String.prototype.trim`. -/
def trim (s : List Char) : List Char :=
  ((s.dropWhile isJSWhite).reverse.dropWhile isJSWhite).reverse

/-- The method `String.prototype.split` with a one-character separator. -/
def split (sep : Char) : List Char → List (List Char)
  | [] => [[]]
  | c :: cs =>
    if c = sep then [] :: split sep cs
    else
      match split sep cs with
      | [] => [[c]]
      | h :: t => (c :: h) :: t

/-- The method `Array.prototype.join` on an array of strings. -/
def join (sep : List Char) : List (List Char) → List Char
  | [] => []
  | [a] => a
  | a :: b :: rest => a ++ sep ++ join sep (b :: rest)

/-- The value of a decimal digit. -/
def digitVal (c : Char) : Option Nat :=
  if 48 ≤ c.toNat ∧ c.toNat ≤ 57 then some (c.toNat - 48) else none

/-- The longest run of decimal digits at the start of a string, and what follows it. -/
def spanDigits : List Char → List Nat × List Char
  | [] => ([], [])
  | c :: cs =>
    match digitVal c with
    | some d => ((spanDigits cs).1 ++ [d], (spanDigits cs).2)
    | none => ([], c :: cs)

/-- The number a list of decimal digits denotes, least significant digit first. -/
def digitsValue : List Nat → Nat
  | [] => 0
  | d :: ds => d + 10 * digitsValue ds

/-- An optional sign at the start of a string: whether it is a minus, and what follows. -/
def spanSign : List Char → Bool × List Char
  | '-' :: cs => (true, cs)
  | '+' :: cs => (false, cs)
  | cs => (false, cs)

/-- The exponent part `e±ddd` at the start of a string, when there is a complete one. -/
def exponentPart : List Char → Int
  | c :: cs =>
    if c = 'e' ∨ c = 'E' then
      match spanDigits (spanSign cs).2 with
      | ([], _) => 0
      | (ds, _) => if (spanSign cs).1 then - (digitsValue ds : Int) else (digitsValue ds : Int)
    else 0
  | [] => 0

/-- The unsigned decimal literal at the start of a string (`StrUnsignedDecimalLiteral` without
`Infinity`), as an exact rational; `none` when no prefix is one. -/
def unsignedDecimal (s : List Char) : Option ℚ :=
  let intPart := spanDigits s
  match intPart.2 with
  | '.' :: r =>
    let fracPart := spanDigits r
    if intPart.1 = [] ∧ fracPart.1 = [] then none
    else
      some (((digitsValue intPart.1 : ℚ) + (digitsValue fracPart.1 : ℚ) / 10 ^ fracPart.1.length)
        * 10 ^ exponentPart fracPart.2)
  | rest =>
    if intPart.1 = [] then none
    else some ((digitsValue intPart.1 : ℚ) * 10 ^ exponentPart rest)

/-- The global function `parseFloat`: the value of the longest prefix of the input, leading white
space skipped, that is a decimal literal; NaN when there is none. The value of the literal is
exact: it is not rounded to a double, so a literal beyond the double range (`1e400`) is a large
finite value here and not an infinity. -/
def parseFloat (s : List Char) : JSNum :=
  let t := spanSign (s.dropWhile isJSWhite)
  if "Infinity".toList.isPrefixOf t.2 then (if t.1 then JSNum.ninf else JSNum.pinf)
  else
    match unsignedDecimal t.2 with
    | none => JSNum.nan
    | some q => JSNum.fin (if t.1 then -q else q)

/-! ## parseCSV -/

/-- The inner loop of `parseCSV`: every part of a line whose `parseFloat` is not NaN is pushed. -/
def parseParts (values : List JSNum) (parts : List (List Char)) : List JSNum :=
  parts.foldl
    (fun vs part => if !(parseFloat part).isNaN then vs ++ [parseFloat part] else vs) values

/-- The function `parseCSV`. -/
def parseCSV (text : List Char) : List JSNum :=
  let lines := split '\n' (trim text)
  let values := lines.foldl (fun vs line => parseParts vs ((split ',' line).map trim)) []
  values.take 100

/-- The tokens of a text in encounter order: line by line, then comma-separated part by part,
each trimmed. -/
def csvTokens (text : List Char) : List (List Char) :=
  (split '\n' (trim text)).flatMap (fun line => (split ',' line).map trim)

/-- The text `downloadDataset` exports: the strings of the values joined by a comma and a
newline. -/
def exportCsv (toStr : JSNum → List Char) (data : List JSNum) : List Char :=
  join [',', '\n'] (data.map toStr)

/-- The result the specification words describe for `parseCSV`: the first 100 values, in
encounter order, of the tokens that parse as a finite number. -/
def finiteTokenValues (text : List Char) : List JSNum :=
  (((csvTokens text).map parseFloat).filter (fun x => x.isFinite)).take 100

/-- The string of a number (`Number::toString`) on the special values and on the finite values
with an exact decimal expansion `ddd.ddd` (an integer, or a denominator that is a power of two);
exponent notation is not covered. -/
def showNumber : JSNum → List Char
  | JSNum.fin q =>
    let k := Nat.log2 q.den
    let digits := Nat.toDigits 10 (|q| * 10 ^ k).num.toNat
    let padded := List.replicate (k + 1 - digits.length) '0' ++ digits
    (if q < 0 then ['-'] else []) ++ padded.take (padded.length - k)
      ++ (if k = 0 then [] else '.' :: padded.drop (padded.length - k))
  | JSNum.pinf => "Infinity".toList
  | JSNum.ninf => "-Infinity".toList
  | JSNum.nan => "NaN".toList

/-! ## calculateStats -/

/-- The comparator `(a, b) => a - b` does not ask for `a` after `b`: its result is not positive
(a NaN result counts as zero). -/
def sortLE (a b : JSNum) : Prop := JSNum.lt (JSNum.fin 0) (JSNum.sub a b) = false

instance sortLE_decidable : DecidableRel sortLE :=
  fun a b => inferInstanceAs (Decidable (JSNum.lt (JSNum.fin 0) (JSNum.sub a b) = false))

/-- The call `xs.sort((a, b) => a - b)`: a stable sort driven by the comparator. ECMAScript fixes
the result whenever the comparator is consistent (no NaN in the array); with a NaN the order is
implementation-defined, and this is one such order. -/
def jsSort (xs : List JSNum) : List JSNum := xs.insertionSort sortLE

/-- An array element read by a natural index; reading past the end gives `undefined`, which
arithmetic turns into NaN. -/
def elemAt (xs : List JSNum) (i : Nat) : JSNum := xs.getD i JSNum.nan

/-- The record `calculateStats` returns. -/
structure Stats where
  mean : JSNum
  stdDev : JSNum
  variance : JSNum
  min : JSNum
  max : JSNum
  median : JSNum
  count : Nat
  deriving DecidableEq

/-- The function `calculateStats`; `none` is `null`. -/
def calculateStats (M : MathFns) (data : List JSNum) : Option Stats :=
  if data.length = 0 then none
  else
    let n := data.length
    let mean := JSNum.div (data.foldl (fun a b => JSNum.add a b) (JSNum.fin 0)) (JSNum.ofNat n)
    let variance :=
      JSNum.div
        (data.foldl (fun sum val => JSNum.add sum (mathPow2 (JSNum.sub val mean))) (JSNum.fin 0))
        (JSNum.ofNat n)
    let stdDev := mathSqrt M variance
    let sorted := jsSort data
    let min := elemAt sorted 0
    let max := elemAt sorted (sorted.length - 1)
    let median :=
      if n % 2 = 0 then
        JSNum.div (JSNum.add (elemAt sorted (n / 2 - 1)) (elemAt sorted (n / 2))) (JSNum.fin 2)
      else elemAt sorted (n / 2)
    some { mean := mean, stdDev := stdDev, variance := variance, min := min, max := max,
           median := median, count := n }

/-! ## Random variates -/

/-- The function `generateNormal` (Box-Muller); it makes two calls of `Math.random`, the calls
number `c` and `c + 1` of the stream. Returns the draw and the new call count. -/
def generateNormal (M : MathFns) (rand : Nat → ℚ) (c : Nat) (mean stdDev : JSNum) : JSNum × Nat :=
  let u1 := JSNum.fin (rand c)
  let u2 := JSNum.fin (rand (c + 1))
  let z0 :=
    JSNum.mul (mathSqrt M (JSNum.mul (JSNum.fin (-2)) (mathLog M u1)))
      (mathCos M (JSNum.mul (JSNum.mul (JSNum.fin 2) (JSNum.fin M.PI)) u2))
  (JSNum.add (JSNum.mul z0 stdDev) mean, c + 2)

/-- The function `generateUniform`; it makes one call of `Math.random`. The arithmetic is that of
`JSNum`: exact on finite values, so `max - min` does not overflow to an infinity as it does in
double precision for bounds near `±1.8e308`. -/
def generateUniform (rand : Nat → ℚ) (c : Nat) (min max : JSNum) : JSNum × Nat :=
  (JSNum.add (JSNum.mul (JSNum.fin (rand c)) (JSNum.sub max min)) min, c + 1)

/-! ## Component state -/

/-- The two options of the distribution selector. -/
inductive Distribution where
  | normal
  | uniform
  deriving DecidableEq

/-- One entry of `histogramData`. -/
structure HistogramEntry where
  value : JSNum
  count : Nat
  frequency : List Char
  deriving DecidableEq

/-- One entry of `sampleDatasets`. -/
structure SampleDataset where
  id : Nat
  data : List JSNum
  stats : Option Stats
  deriving DecidableEq

/-- The `percentiles` object; `none` is `undefined`. -/
structure Percentiles where
  p5 : Option JSNum
  p25 : Option JSNum
  p50 : Option JSNum
  p75 : Option JSNum
  p95 : Option JSNum
  deriving DecidableEq

/-- The object passed to `setSimulationResults`. -/
structure SimulationResults where
  raw : List JSNum
  stats : Stats
  histogram : List HistogramEntry
  sampleDatasets : List SampleDataset
  percentiles : Percentiles
  deriving DecidableEq

/-- The state variables of the component that the engine reads or writes. -/
structure State where
  csvData : List Char
  dataPoints : List JSNum
  stats : Option Stats
  numSimulations : Int
  simulationResults : Option SimulationResults
  distributionType : Distribution
  minValueConstraint : JSNum
  useMinConstraint : Bool
  deriving DecidableEq

/-- The state a freshly mounted component starts in. -/
def initialState : State :=
  { csvData := [], dataPoints := [], stats := none, numSimulations := 10000,
    simulationResults := none, distributionType := Distribution.normal,
    minValueConstraint := JSNum.fin 0, useMinConstraint := true }

/-- The handler `handleManualInput`. -/
def handleManualInput (M : MathFns) (s : State) : State :=
  let parsed := parseCSV s.csvData
  { s with dataPoints := parsed, stats := calculateStats M parsed, simulationResults := none }

/-- What a JavaScript exception of `runSimulation` can be. -/
inductive JSError where
  | typeError
  deriving DecidableEq

/-! ## runSimulation -/

/-- The floor of `runSimulation`: a value below `minValueConstraint` is replaced by it when
`useMinConstraint` is set. -/
def applyMinConstraint (s : State) (value : JSNum) : JSNum :=
  if s.useMinConstraint && value.lt s.minValueConstraint then s.minValueConstraint else value

/-- One draw of the aggregate loop, before the floor. -/
def aggregateDraw (M : MathFns) (rand : Nat → ℚ) (s : State) (st : Stats) (c : Nat) : JSNum × Nat :=
  match s.distributionType with
  | Distribution.normal => generateNormal M rand c st.mean st.stdDev
  | Distribution.uniform => generateUniform rand c st.min st.max

/-- The loop `for (let i = 0; i < numSimulations; i++)`, with the number of iterations left, the
call count and `results` so far. -/
def aggregateLoop (M : MathFns) (rand : Nat → ℚ) (s : State) (st : Stats) :
    Nat → Nat → List JSNum → List JSNum × Nat
  | 0, c, results => (results, c)
  | k + 1, c, results =>
    aggregateLoop M rand s st k (aggregateDraw M rand s st c).2
      (results ++ [applyMinConstraint s (aggregateDraw M rand s st c).1])

/-- The local range of the paired uniform mode: `localMin` and `localMax` after the two
clamps to the global bounds. -/
def localWindow (st : Stats) (originalValue : JSNum) : JSNum × JSNum :=
  let pointRange := JSNum.sub st.max st.min
  let halfRange := JSNum.div pointRange (JSNum.fin 4)
  let localMin := JSNum.sub originalValue halfRange
  let localMax := JSNum.add originalValue halfRange
  (mathMax localMin st.min, mathMin localMax st.max)

/-- One draw of the paired loop around `originalValue`, before the floor. -/
def pairedDraw (M : MathFns) (rand : Nat → ℚ) (s : State) (st : Stats) (c : Nat)
    (originalValue : JSNum) : JSNum × Nat :=
  match s.distributionType with
  | Distribution.normal => generateNormal M rand c originalValue st.stdDev
  | Distribution.uniform =>
    generateUniform rand c (localWindow st originalValue).1 (localWindow st originalValue).2

/-- The loop over the positions `j` of `dataPoints`, with the points still to visit, the call
count and `dataset` so far. -/
def datasetLoop (M : MathFns) (rand : Nat → ℚ) (s : State) (st : Stats) :
    List JSNum → Nat → List JSNum → List JSNum × Nat
  | [], c, dataset => (dataset, c)
  | originalValue :: rest, c, dataset =>
    datasetLoop M rand s st rest (pairedDraw M rand s st c originalValue).2
      (dataset ++ [applyMinConstraint s (pairedDraw M rand s st c originalValue).1])

/-- The loop `for (let i = 0; i < 10; i++)`, with the number of iterations left, `i`, the call
count and `sampleDatasets` so far. -/
def sampleDatasetsLoop (M : MathFns) (rand : Nat → ℚ) (s : State) (st : Stats) :
    Nat → Nat → Nat → List SampleDataset → List SampleDataset × Nat
  | 0, _, c, sampleDatasets => (sampleDatasets, c)
  | k + 1, i, c, sampleDatasets =>
    sampleDatasetsLoop M rand s st k (i + 1) (datasetLoop M rand s st s.dataPoints c []).2
      (sampleDatasets ++
        [{ id := i + 1, data := (datasetLoop M rand s st s.dataPoints c []).1,
           stats := calculateStats M (datasetLoop M rand s st s.dataPoints c []).1 }])

/-- The constant `numBins`. -/
def numBins : Nat := 50

/-- The bin index computed for one sample. -/
def binIndex (simStats : Stats) (binSize val : JSNum) : JSNum :=
  mathMin (mathFloor (JSNum.div (JSNum.sub val simStats.min) binSize))
    (JSNum.sub (JSNum.ofNat numBins) (JSNum.fin 1))

/-- The statement `bins[binIndex]++`: an index that is not an integer within the array (NaN, for
one) names a property of the array object and leaves its elements alone. -/
def incrementBin (bins : List Nat) : JSNum → List Nat
  | JSNum.fin q =>
    if q.den = 1 ∧ 0 ≤ q.num ∧ q.num.toNat < bins.length then
      bins.set q.num.toNat (bins.getD q.num.toNat 0 + 1)
    else bins
  | _ => bins

/-- The array `bins` after `results.forEach`. -/
def fillBins (simStats : Stats) (binSize : JSNum) (results : List JSNum) : List Nat :=
  results.foldl (fun bins val => incrementBin bins (binIndex simStats binSize val))
    (List.replicate numBins 0)

/-- The method `toFixed(2)` (for magnitudes below `10^21`): the nearest multiple of `1/100`, the
larger one on a tie, written with two decimals. -/
def toFixed2 : JSNum → List Char
  | JSNum.fin q =>
    let digits := Nat.toDigits 10 ⌊|q| * 100 + 1 / 2⌋.toNat
    let padded := List.replicate (3 - digits.length) '0' ++ digits
    (if q < 0 then ['-'] else []) ++ padded.take (padded.length - 2) ++ ['.']
      ++ padded.drop (padded.length - 2)
  | JSNum.pinf => "Infinity".toList
  | JSNum.ninf => "-Infinity".toList
  | JSNum.nan => "NaN".toList

/-- The histogram entry built from the count of bin `i`. -/
def histogramEntry (simStats : Stats) (binSize : JSNum) (numSimulations : Int) (count i : Nat) :
    HistogramEntry :=
  { value :=
      JSNum.div
        (JSNum.add (JSNum.add simStats.min (JSNum.mul (JSNum.ofNat i) binSize))
          (JSNum.mul (JSNum.add (JSNum.ofNat i) (JSNum.fin 1)) binSize))
        (JSNum.fin 2),
    count := count,
    frequency :=
      toFixed2 (JSNum.mul (JSNum.div (JSNum.ofNat count) (JSNum.ofInt numSimulations))
        (JSNum.fin 100)) }

/-- The call `bins.map((count, i) => ...)`, from index `i` on. -/
def histogramData (simStats : Stats) (binSize : JSNum) (numSimulations : Int) :
    Nat → List Nat → List HistogramEntry
  | _, [] => []
  | i, count :: rest =>
    histogramEntry simStats binSize numSimulations count i
      :: histogramData simStats binSize numSimulations (i + 1) rest

/-- An array element read by a number: `undefined` unless the number is a natural index within
the array. -/
def arrayGet (xs : List JSNum) : JSNum → Option JSNum
  | JSNum.fin q => if q.den = 1 ∧ 0 ≤ q.num then xs.get? q.num.toNat else none
  | _ => none

/-- The element `sorted[Math.floor(numSimulations * p)]`. -/
def percentileAt (sorted : List JSNum) (numSimulations : Int) (p : ℚ) : Option JSNum :=
  arrayGet sorted (mathFloor (JSNum.mul (JSNum.ofInt numSimulations) (JSNum.fin p)))

/-- The function `runSimulation`, from the state `s` and `calls` earlier calls of `Math.random`:
the new state and call count, or the exception thrown. The five `results.sort` calls of the
`percentiles` object sort `results` in place, and `raw` is that same array. -/
def runSimulation (M : MathFns) (rand : Nat → ℚ) (s : State) (calls : Nat) :
    Except JSError (State × Nat) :=
  match s.stats with
  | none => Except.ok (s, calls)
  | some st =>
    let aggregate := aggregateLoop M rand s st s.numSimulations.toNat calls []
    let results := aggregate.1
    let sampleDatasets := sampleDatasetsLoop M rand s st 10 0 aggregate.2 []
    match calculateStats M results with
    | none => Except.error JSError.typeError
    | some simStats =>
      let binSize := JSNum.div (JSNum.sub simStats.max simStats.min) (JSNum.ofNat numBins)
      let bins := fillBins simStats binSize results
      let sorted1 := jsSort results
      let sorted2 := jsSort sorted1
      let sorted3 := jsSort sorted2
      let sorted4 := jsSort sorted3
      let sorted5 := jsSort sorted4
      Except.ok
        ({ s with
            simulationResults := some
              { raw := sorted5,
                stats := simStats,
                histogram := histogramData simStats binSize s.numSimulations 0 bins,
                sampleDatasets := sampleDatasets.1,
                percentiles :=
                  { p5 := percentileAt sorted1 s.numSimulations (1 / 20),
                    p25 := percentileAt sorted2 s.numSimulations (1 / 4),
                    p50 := percentileAt sorted3 s.numSimulations (1 / 2),
                    p75 := percentileAt sorted4 s.numSimulations (3 / 4),
                    p95 := percentileAt sorted5 s.numSimulations (19 / 20) } } },
          sampleDatasets.2)

/-- The calls of `Math.random` one draw makes: two in `generateNormal`, one in
`generateUniform`. -/
def callsPerDraw : Distribution → Nat
  | Distribution.normal => 2
  | Distribution.uniform => 1

/-- The sample count clamped to `[100, 1000000]`, as the specification words describe it. -/
def clampSamples (n : Int) : Int := max 100 (min 1000000 n)

/-- The `raw` array of the result a run stored, if it stored one. -/
def rawOf (r : Except JSError (State × Nat)) : Option (List JSNum) :=
  match r with
  | Except.ok (s, _) => s.simulationResults.map (fun res => res.raw)
  | Except.error _ => none

/-- The histogram of the result a run stored, if it stored one. -/
def histogramOf (r : Except JSError (State × Nat)) : Option (List HistogramEntry) :=
  match r with
  | Except.ok (s, _) => s.simulationResults.map (fun res => res.histogram)
  | Except.error _ => none

/-- The sample datasets of the result a run stored, if it stored one. -/
def sampleDatasetsOf (r : Except JSError (State × Nat)) : Option (List SampleDataset) :=
  match r with
  | Except.ok (s, _) => s.simulationResults.map (fun res => res.sampleDatasets)
  | Except.error _ => none

/-- The local array `sampleDatasets` of `runSimulation` as it stands once its loop has ended and
before `calculateStats(results)` is called; `none` when the function returned at its first line. -/
def sampleDatasetsBuilt (M : MathFns) (rand : Nat → ℚ) (s : State) (calls : Nat) :
    Option (List SampleDataset) :=
  s.stats.map (fun st =>
    (sampleDatasetsLoop M rand s st 10 0
      (aggregateLoop M rand s st s.numSimulations.toNat calls []).2 []).1)

/-- The aggregate statistics of the result a run stored, if it stored one. -/
def statsOf (r : Except JSError (State × Nat)) : Option Stats :=
  match r with
  | Except.ok (s, _) => s.simulationResults.map (fun res => res.stats)
  | Except.error _ => none

/-- Whether a run threw. -/
def threw (r : Except JSError (State × Nat)) : Bool :=
  match r with
  | Except.ok _ => false
  | Except.error _ => true

/-! ## Concrete inputs -/

/-- The integer square root by bisection, with `fuel` halvings of the interval `[lo, hi]`; from
`[0, n]` it has converged after as many halvings as `n` has binary digits. -/
def isqrtLoop (n : Nat) : Nat → Nat → Nat → Nat
  | 0, lo, _ => lo
  | fuel + 1, lo, hi =>
    if (lo + hi + 1) / 2 * ((lo + hi + 1) / 2) ≤ n then isqrtLoop n fuel ((lo + hi + 1) / 2) hi
    else isqrtLoop n fuel lo ((lo + hi + 1) / 2 - 1)

/-- The terms `x^(2k) / (2k)!` of the cosine series, with alternating signs, `k < terms`. -/
def cosSeries (x : ℚ) (terms : Nat) : ℚ :=
  ((List.range terms).map (fun k => (-1) ^ k * x ^ (2 * k) / (Nat.factorial (2 * k) : ℚ))).sum

/-- The terms `2 y^(2k+1) / (2k+1)` of the logarithm series in `y = (q - 1) / (q + 1)`. -/
def logSeries (q : ℚ) (terms : Nat) : ℚ :=
  ((List.range terms).map
    (fun k => 2 * ((q - 1) / (q + 1)) ^ (2 * k + 1) / ((2 * k + 1 : Nat) : ℚ))).sum

/-- Rational approximations of the real functions, good to a few decimals on the arguments
`generateNormal` and `calculateStats` pass in the examples: the square root to six decimals
(exact on squares of such decimals), truncated series for the logarithm and the cosine. -/
def approxMath : MathFns :=
  { sqrt := fun q =>
      (isqrtLoop (q.num.toNat * q.den * 10 ^ 12)
          ((Nat.toDigits 2 (q.num.toNat * q.den * 10 ^ 12)).length + 1) 0
          (q.num.toNat * q.den * 10 ^ 12) : ℚ)
        / (q.den * 10 ^ 6),
    log := fun q => logSeries q 12,
    cos := fun q => cosSeries q 11,
    PI := 355 / 113 }

/-- A stream of draws that cycles through `0, 1/2, 1/4, 3/4`. -/
def cycleRand (k : Nat) : ℚ :=
  match k % 4 with
  | 0 => 0
  | 1 => 1 / 2
  | 2 => 1 / 4
  | _ => 3 / 4

/-- A stream of draws whose first draw is `0` and whose other draws are `1/2`. -/
def zeroThenHalf (k : Nat) : ℚ := if k = 0 then 0 else 1 / 2

/-- The statistics of the observations `2, 4, 4, 4, 5, 5, 7, 9`: mean 5, variance 4. -/
def exampleStats : Stats :=
  { mean := JSNum.fin 5, stdDev := JSNum.fin 2, variance := JSNum.fin 4, min := JSNum.fin 2,
    max := JSNum.fin 9, median := JSNum.fin (9 / 2), count := 8 }

/-- The state after parsing `text`, with the given simulation parameters. -/
def stateOf (text : String) (n : Int) (d : Distribution) (useMin : Bool) (floor : JSNum) : State :=
  { handleManualInput approxMath { initialState with csvData := text.toList } with
    numSimulations := n, distributionType := d, useMinConstraint := useMin,
    minValueConstraint := floor }

end MonteCarlo

/-! # Theorems -/

namespace MonteCarlo

/-! ## The model on concrete inputs -/

/-- The function `parseFloat` on a few tokens: a numeric prefix is read, an exponent needs its
digits, and a token without a numeric prefix is NaN. -/
theorem parseFloat_examples :
    parseFloat "  12abc".toList = JSNum.fin 12
      ∧ parseFloat ".5".toList = JSNum.fin (1 / 2)
      ∧ parseFloat "5.".toList = JSNum.fin 5
      ∧ parseFloat "-1.25e2".toList = JSNum.fin (-125)
      ∧ parseFloat "1e".toList = JSNum.fin 1
      ∧ parseFloat "+Infinity".toList = JSNum.pinf
      ∧ parseFloat "-".toList = JSNum.nan
      ∧ parseFloat ".".toList = JSNum.nan
      ∧ parseFloat "abc".toList = JSNum.nan
      ∧ parseFloat [] = JSNum.nan := by
  decide!

/-- The function `parseCSV` on a text of two lines. -/
theorem parseCSV_example :
    parseCSV "1.5, 2.3, abc, -4e1\n 7,,x9".toList
      = [JSNum.fin (3 / 2), JSNum.fin (23 / 10), JSNum.fin (-40), JSNum.fin 7] := by
  decide!

/-- The scenario of the specification: the statistics of `1, 2, 3, 4, 5`, with the square root
of 2 to six decimals. -/
theorem calculateStats_scenario :
    calculateStats approxMath (parseCSV "1, 2, 3, 4, 5".toList)
      = some { mean := JSNum.fin 3, stdDev := JSNum.fin (1414213 / 1000000),
               variance := JSNum.fin 2, min := JSNum.fin 1, max := JSNum.fin 5,
               median := JSNum.fin 3, count := 5 } := by
  decide!

/-- The method `toFixed(2)` on a few values. -/
theorem toFixed2_examples :
    toFixed2 (JSNum.fin (100 / 3)) = "33.33".toList
      ∧ toFixed2 (JSNum.fin (1 / 8)) = "0.13".toList
      ∧ toFixed2 (JSNum.fin 100) = "100.00".toList
      ∧ toFixed2 (JSNum.fin 0) = "0.00".toList
      ∧ toFixed2 JSNum.nan = "NaN".toList := by
  decide!

/-! ## Arithmetic on finite values -/

@[simp] theorem add_fin (a b : ℚ) : JSNum.add (JSNum.fin a) (JSNum.fin b) = JSNum.fin (a + b) := rfl

@[simp] theorem sub_fin (a b : ℚ) : JSNum.sub (JSNum.fin a) (JSNum.fin b) = JSNum.fin (a - b) := by
  simp [JSNum.sub, JSNum.neg, sub_eq_add_neg]

@[simp] theorem mul_fin (a b : ℚ) : JSNum.mul (JSNum.fin a) (JSNum.fin b) = JSNum.fin (a * b) := rfl

theorem div_fin (a b : ℚ) (hb : b ≠ 0) :
    JSNum.div (JSNum.fin a) (JSNum.fin b) = JSNum.fin (a / b) := by
  simp [JSNum.div, hb]

@[simp] theorem le_fin (a b : ℚ) : JSNum.le (JSNum.fin a) (JSNum.fin b) = true ↔ a ≤ b := by
  simp [JSNum.le]

@[simp] theorem lt_fin (a b : ℚ) : JSNum.lt (JSNum.fin a) (JSNum.fin b) = true ↔ a < b := by
  simp [JSNum.lt]

theorem sortLE_fin (a b : ℚ) : sortLE (JSNum.fin a) (JSNum.fin b) ↔ a ≤ b := by
  unfold sortLE
  rw [sub_fin, Bool.eq_false_iff, Ne, lt_fin]
  constructor
  · intro h; linarith [not_lt.mp h]
  · intro h; exact not_lt.mpr (by linarith)

/-! ## calculateStats on finite data -/

theorem foldl_add_fin (qs : List ℚ) (a : ℚ) :
    (qs.map JSNum.fin).foldl (fun x y => JSNum.add x y) (JSNum.fin a) = JSNum.fin (a + qs.sum) := by
  induction qs generalizing a with
  | nil => simp
  | cons q qs ih => simp [ih, add_assoc]

theorem foldl_sq_fin (qs : List ℚ) (m a : ℚ) :
    (qs.map JSNum.fin).foldl
        (fun sum val => JSNum.add sum (mathPow2 (JSNum.sub val (JSNum.fin m)))) (JSNum.fin a)
      = JSNum.fin (a + (qs.map (fun v => (v - m) * (v - m))).sum) := by
  induction qs generalizing a with
  | nil => simp
  | cons q qs ih =>
    simp only [List.map_cons, List.foldl_cons, sub_fin, mathPow2, mul_fin, add_fin, List.sum_cons]
    have h := ih (a + (q - m) * (q - m))
    simp only [mathPow2] at h
    rw [h, add_assoc]

theorem jsSort_map_fin (qs : List ℚ) :
    jsSort (qs.map JSNum.fin) = (qs.insertionSort (· ≤ ·)).map JSNum.fin := by
  unfold jsSort
  exact (List.map_insertionSort (· ≤ ·) sortLE JSNum.fin qs
    (fun a _ b _ => (sortLE_fin a b).symm)).symm

theorem elemAt_map_fin (s : List ℚ) (i : Nat) (h : i < s.length) :
    elemAt (s.map JSNum.fin) i = JSNum.fin (s.getD i 0) := by
  simp [elemAt, List.getD_eq_getElem?_getD, List.getElem?_eq_getElem h]

/-- The statistics of finite data, in closed form over the rationals. -/
theorem calculateStats_fin (M : MathFns) (qs : List ℚ) (h : qs ≠ []) :
    calculateStats M (qs.map JSNum.fin) = some
      { mean := JSNum.fin (qs.sum / qs.length),
        stdDev := mathSqrt M (JSNum.fin
          ((qs.map (fun v => (v - qs.sum / qs.length) * (v - qs.sum / qs.length))).sum
            / qs.length)),
        variance := JSNum.fin
          ((qs.map (fun v => (v - qs.sum / qs.length) * (v - qs.sum / qs.length))).sum
            / qs.length),
        min := JSNum.fin ((qs.insertionSort (· ≤ ·)).getD 0 0),
        max := JSNum.fin ((qs.insertionSort (· ≤ ·)).getD (qs.length - 1) 0),
        median :=
          if qs.length % 2 = 0 then
            JSNum.fin (((qs.insertionSort (· ≤ ·)).getD (qs.length / 2 - 1) 0
              + (qs.insertionSort (· ≤ ·)).getD (qs.length / 2) 0) / 2)
          else JSNum.fin ((qs.insertionSort (· ≤ ·)).getD (qs.length / 2) 0),
        count := qs.length } := by
  have hlen : 0 < qs.length := List.length_pos.mpr h
  have hne : (qs.length : ℚ) ≠ 0 := by exact_mod_cast hlen.ne'
  have hs : (qs.insertionSort (· ≤ ·)).length = qs.length := List.length_insertionSort _ _
  unfold calculateStats
  rw [if_neg (by simpa using h)]
  simp only [List.length_map, jsSort_map_fin, JSNum.ofNat, foldl_add_fin, foldl_sq_fin, zero_add,
    div_fin _ _ hne, hs]
  rw [elemAt_map_fin _ 0 (by omega), elemAt_map_fin _ (qs.length - 1) (by omega),
    elemAt_map_fin _ (qs.length / 2) (by omega)]
  by_cases hpar : qs.length % 2 = 0
  · rw [if_pos hpar, if_pos hpar, elemAt_map_fin _ (qs.length / 2 - 1) (by omega), add_fin,
      div_fin _ _ (by norm_num)]
  · rw [if_neg hpar, if_neg hpar]

theorem sorted_getD_mono (s : List ℚ) (hs : s.Sorted (· ≤ ·)) {i j : Nat} (hij : i ≤ j)
    (hj : j < s.length) : s.getD i 0 ≤ s.getD j 0 := by
  rw [List.getD_eq_getElem _ _ (lt_of_le_of_lt hij hj), List.getD_eq_getElem _ _ hj]
  exact hs.rel_get_of_le (a := ⟨i, lt_of_le_of_lt hij hj⟩) (b := ⟨j, hj⟩) (Fin.mk_le_mk.mpr hij)

theorem sorted_getD_bounds (s : List ℚ) (hs : s.Sorted (· ≤ ·)) (x : ℚ) (hx : x ∈ s) :
    s.getD 0 0 ≤ x ∧ x ≤ s.getD (s.length - 1) 0 := by
  obtain ⟨k, hk, rfl⟩ := List.getElem_of_mem hx
  rw [← List.getD_eq_getElem s 0 hk]
  exact ⟨sorted_getD_mono s hs (Nat.zero_le k) hk, sorted_getD_mono s hs (by omega) (by omega)⟩

theorem sum_div_length_bounds (qs : List ℚ) (h : qs ≠ []) (lo hi : ℚ)
    (hb : ∀ x ∈ qs, lo ≤ x ∧ x ≤ hi) : lo ≤ qs.sum / qs.length ∧ qs.sum / qs.length ≤ hi := by
  have hlen : (0 : ℚ) < qs.length := by exact_mod_cast List.length_pos.mpr h
  have h1 := List.card_nsmul_le_sum qs lo (fun x hx => (hb x hx).1)
  have h2 := List.sum_le_card_nsmul qs hi (fun x hx => (hb x hx).2)
  rw [nsmul_eq_mul] at h1 h2
  constructor
  · rw [le_div_iff₀ hlen]; linarith
  · rw [div_le_iff₀ hlen]; linarith

/-- C1. For every non-empty sequence of finite numbers, `calculateStats` returns a record with
`min ≤ median ≤ max`, `min ≤ mean ≤ max` and `variance ≥ 0` (arithmetic exact). -/
theorem calculateStats_order (M : MathFns) (qs : List ℚ) (h : qs ≠ []) :
    ∃ st, calculateStats M (qs.map JSNum.fin) = some st
      ∧ JSNum.le st.min st.median = true ∧ JSNum.le st.median st.max = true
      ∧ JSNum.le st.min st.mean = true ∧ JSNum.le st.mean st.max = true
      ∧ JSNum.le (JSNum.fin 0) st.variance = true := by
  refine ⟨_, calculateStats_fin M qs h, ?_⟩
  have hlen : 0 < qs.length := List.length_pos.mpr h
  have hsl : (qs.insertionSort (· ≤ ·)).length = qs.length := List.length_insertionSort _ _
  have hs : (qs.insertionSort (· ≤ ·)).Sorted (· ≤ ·) := List.sorted_insertionSort _ _
  have mono : ∀ {i j : Nat}, i ≤ j → j < qs.length →
      (qs.insertionSort (· ≤ ·)).getD i 0 ≤ (qs.insertionSort (· ≤ ·)).getD j 0 :=
    fun hij hj => sorted_getD_mono _ hs hij (by omega)
  have hmean := sum_div_length_bounds qs h ((qs.insertionSort (· ≤ ·)).getD 0 0)
    ((qs.insertionSort (· ≤ ·)).getD (qs.length - 1) 0) (fun x hx => by
      have := sorted_getD_bounds _ hs x ((List.mem_insertionSort _).mpr hx)
      rwa [hsl] at this)
  have hvar : (0 : ℚ) ≤
      (qs.map (fun v => (v - qs.sum / qs.length) * (v - qs.sum / qs.length))).sum / qs.length := by
    apply div_nonneg _ (Nat.cast_nonneg _)
    apply List.sum_nonneg
    intro x hx
    obtain ⟨v, _, rfl⟩ := List.mem_map.mp hx
    exact mul_self_nonneg _
  simp only [le_fin]
  refine ⟨?_, ?_, hmean.1, hmean.2, hvar⟩
  · by_cases hpar : qs.length % 2 = 0
    · rw [if_pos hpar, le_fin]
      have h1 := mono (Nat.zero_le (qs.length / 2 - 1)) (by omega)
      have h2 := mono (Nat.zero_le (qs.length / 2)) (by omega)
      linarith
    · rw [if_neg hpar, le_fin]
      exact mono (Nat.zero_le _) (by omega)
  · by_cases hpar : qs.length % 2 = 0
    · rw [if_pos hpar, le_fin]
      have h1 := mono (show qs.length / 2 - 1 ≤ qs.length - 1 by omega) (by omega)
      have h2 := mono (show qs.length / 2 ≤ qs.length - 1 by omega) (by omega)
      linarith
    · rw [if_neg hpar, le_fin]
      exact mono (by omega) (by omega)

/-- C1, at the data `2, 7, 1, 1`. -/
theorem calculateStats_order_witness :
    ([2, 7, 1, 1] : List ℚ) ≠ [] ∧
    ∃ st, calculateStats approxMath (([2, 7, 1, 1] : List ℚ).map JSNum.fin) = some st
      ∧ JSNum.le st.min st.median = true ∧ JSNum.le st.median st.max = true
      ∧ JSNum.le st.min st.mean = true ∧ JSNum.le st.mean st.max = true
      ∧ JSNum.le (JSNum.fin 0) st.variance = true :=
  ⟨by decide, calculateStats_order approxMath [2, 7, 1, 1] (by decide)⟩

/-! ## parseCSV -/

theorem parseParts_eq (values : List JSNum) (parts : List (List Char)) :
    parseParts values parts
      = values ++ (parts.map parseFloat).filter (fun x => !x.isNaN) := by
  unfold parseParts
  induction parts generalizing values with
  | nil => simp
  | cons part parts ih =>
    rw [List.foldl_cons, ih]
    by_cases hn : (parseFloat part).isNaN = true
    · simp [hn]
    · simp [hn]

theorem parseLines_eq (values : List JSNum) (lines : List (List Char)) :
    lines.foldl (fun vs line => parseParts vs ((split ',' line).map trim)) values
      = values ++ ((lines.flatMap (fun line => (split ',' line).map trim)).map parseFloat).filter
          (fun x => !x.isNaN) := by
  induction lines generalizing values with
  | nil => simp
  | cons line lines ih =>
    rw [List.foldl_cons, ih, parseParts_eq]
    simp [List.append_assoc]

/-- The loops of `parseCSV` push, in encounter order, the value of every token whose value is not
NaN. -/
theorem parseCSV_eq_filter (text : List Char) :
    parseCSV text
      = (((csvTokens text).map parseFloat).filter (fun x => !x.isNaN)).take 100 := by
  unfold parseCSV csvTokens
  simp only [parseLines_eq, List.nil_append]

/-! ## Splitting, trimming and joining -/

theorem split_no_sep (sep : Char) (a : List Char) (h : ∀ c ∈ a, c ≠ sep) : split sep a = [a] := by
  induction a with
  | nil => rfl
  | cons c cs ih =>
    have hc : c ≠ sep := h c (List.mem_cons_self c cs)
    have hcs := ih (fun d hd => h d (List.mem_cons_of_mem c hd))
    simp [split, hc, hcs]

theorem split_append_sep (sep : Char) (a b : List Char) (h : ∀ c ∈ a, c ≠ sep) :
    split sep (a ++ sep :: b) = a :: split sep b := by
  induction a with
  | nil => simp [split]
  | cons c cs ih =>
    have hc : c ≠ sep := h c (List.mem_cons_self c cs)
    have hcs := ih (fun d hd => h d (List.mem_cons_of_mem c hd))
    simp [split, hc, hcs]

theorem dropWhile_eq_self_of_head (p : Char → Bool) (c : Char) (t : List Char) (hc : p c = false) :
    (c :: t).dropWhile p = c :: t := by
  simp [List.dropWhile_cons, hc]

theorem trim_of_ends (c d : Char) (t u : List Char) (hc : isJSWhite c = false)
    (hd : isJSWhite d = false) (h : c :: t = u ++ [d]) : trim (c :: t) = c :: t := by
  unfold trim
  rw [dropWhile_eq_self_of_head _ c t hc, h, List.reverse_append, List.reverse_singleton,
    List.singleton_append, dropWhile_eq_self_of_head _ d _ hd, List.reverse_cons,
    List.reverse_reverse]

theorem trim_eq_self (s : List Char) (h : ∀ c ∈ s, isJSWhite c = false) : trim s = s := by
  cases s with
  | nil => rfl
  | cons c t =>
    obtain ⟨u, d, hud⟩ : ∃ u d, c :: t = u ++ [d] :=
      ⟨(c :: t).dropLast, (c :: t).getLast (List.cons_ne_nil c t),
        (List.dropLast_append_getLast (List.cons_ne_nil c t)).symm⟩
    have hd : d ∈ c :: t := by rw [hud]; simp
    exact trim_of_ends c d t u (h c (List.mem_cons_self c t)) (h d hd) hud

theorem join_head (sep : List Char) (strs : List (List Char)) (hne : strs ≠ [])
    (h : ∀ a ∈ strs, a ≠ [] ∧ ∀ c ∈ a, isJSWhite c = false) :
    ∃ c t, join sep strs = c :: t ∧ isJSWhite c = false := by
  cases strs with
  | nil => exact absurd rfl hne
  | cons a rest =>
    obtain ⟨ha, hw⟩ := h a (List.mem_cons_self a rest)
    cases a with
    | nil => exact absurd rfl ha
    | cons c a' =>
      cases rest with
      | nil => exact ⟨c, a', rfl, hw c (List.mem_cons_self c a')⟩
      | cons b rest' => exact ⟨c, _, rfl, hw c (List.mem_cons_self c a')⟩

theorem join_last (sep : List Char) (strs : List (List Char)) (hne : strs ≠ [])
    (h : ∀ a ∈ strs, a ≠ [] ∧ ∀ c ∈ a, isJSWhite c = false) :
    ∃ u d, join sep strs = u ++ [d] ∧ isJSWhite d = false := by
  induction strs with
  | nil => exact absurd rfl hne
  | cons a rest ih =>
    cases rest with
    | nil =>
      obtain ⟨ha, hw⟩ := h a (List.mem_cons_self a [])
      refine ⟨a.dropLast, a.getLast ha, (List.dropLast_append_getLast ha).symm, ?_⟩
      exact hw _ (List.getLast_mem ha)
    | cons b rest' =>
      obtain ⟨u, d, hud, hd⟩ := ih (List.cons_ne_nil b rest')
        (fun x hx => h x (List.mem_cons_of_mem a hx))
      refine ⟨a ++ sep ++ u, d, ?_, hd⟩
      show a ++ sep ++ join sep (b :: rest') = a ++ sep ++ u ++ [d]
      rw [hud, List.append_assoc (a ++ sep)]

theorem trim_join (sep : List Char) (strs : List (List Char))
    (h : ∀ a ∈ strs, a ≠ [] ∧ ∀ c ∈ a, isJSWhite c = false) :
    trim (join sep strs) = join sep strs := by
  by_cases hne : strs = []
  · subst hne; rfl
  · obtain ⟨c, t, hct, hc⟩ := join_head sep strs hne h
    obtain ⟨u, d, hud, hd⟩ := join_last sep strs hne h
    rw [hct]
    exact trim_of_ends c d t u hc hd (hct ▸ hud)

theorem ne_newline_of_not_white (c : Char) (h : isJSWhite c = false) : c ≠ '\n' := by
  rintro rfl
  exact absurd h (by decide)

/-- The tokens of the exported text, parsed and filtered, are the exported values. -/
theorem tokenValues_join (toStr : JSNum → List Char) (data : List JSNum)
    (hnan : ∀ x ∈ data, x.isNaN = false)
    (hinv : ∀ x ∈ data, parseFloat (toStr x) = x)
    (hchars : ∀ x ∈ data, ∀ c ∈ toStr x, c ≠ ',' ∧ isJSWhite c = false) :
    ((((split '\n' (join [',', '\n'] (data.map toStr))).flatMap
        (fun line => (split ',' line).map trim)).map parseFloat).filter (fun x => !x.isNaN))
      = data := by
  induction data with
  | nil =>
    show ((((split '\n' (join [',', '\n'] [])).flatMap
        (fun line => (split ',' line).map trim)).map parseFloat).filter (fun x => !x.isNaN)) = []
    decide
  | cons x rest ih =>
    have hx := hinv x (List.mem_cons_self x rest)
    have hxn := hnan x (List.mem_cons_self x rest)
    have hxc := hchars x (List.mem_cons_self x rest)
    have hxw : ∀ c ∈ toStr x, isJSWhite c = false := fun c hc => (hxc c hc).2
    have hxcomma : ∀ c ∈ toStr x, c ≠ ',' := fun c hc => (hxc c hc).1
    have hxnl : ∀ c ∈ toStr x, c ≠ '\n' := fun c hc => ne_newline_of_not_white c (hxw c hc)
    cases rest with
    | nil =>
      simp [join, split_no_sep '\n' _ hxnl, split_no_sep ',' _ hxcomma, trim_eq_self _ hxw, hx, hxn]
    | cons y rest' =>
      have ih' := ih (fun z hz => hnan z (List.mem_cons_of_mem x hz))
        (fun z hz => hinv z (List.mem_cons_of_mem x hz))
        (fun z hz => hchars z (List.mem_cons_of_mem x hz))
      have hline : ∀ c ∈ toStr x ++ [','], c ≠ '\n' := by
        intro c hc
        rcases List.mem_append.mp hc with h1 | h1
        · exact hxnl c h1
        · rw [List.mem_singleton.mp h1]; decide
      have hjoin : join [',', '\n'] ((x :: y :: rest').map toStr)
          = (toStr x ++ [',']) ++ '\n' :: join [',', '\n'] ((y :: rest').map toStr) := by
        simp [join]
      have hnanempty : (parseFloat []).isNaN = true := by decide
      have htrimnil : trim [] = [] := rfl
      rw [hjoin, split_append_sep '\n' _ _ hline, List.flatMap_cons, List.map_append,
        List.filter_append, ih', split_append_sep ',' _ _ hxcomma]
      simp [split, trim_eq_self _ hxw, hx, hxn, htrimnil, hnanempty]

/-- C5. Round trip: for at most 100 finite numbers whose strings `parseFloat` reads back and
which hold no comma and no white space, `parseCSV` of the exported text returns the values in
order. -/
theorem parseCSV_exportCsv (toStr : JSNum → List Char) (data : List JSNum)
    (hlen : data.length ≤ 100)
    (hfin : ∀ x ∈ data, x.isFinite = true)
    (hinv : ∀ x ∈ data, parseFloat (toStr x) = x)
    (hchars : ∀ x ∈ data, ∀ c ∈ toStr x, c ≠ ',' ∧ isJSWhite c = false) :
    parseCSV (exportCsv toStr data) = data := by
  have hnan : ∀ x ∈ data, x.isNaN = false := by
    intro x hx
    have := hfin x hx
    cases x <;> simp_all [JSNum.isFinite, JSNum.isNaN]
  have hstrs : ∀ a ∈ data.map toStr, a ≠ [] ∧ ∀ c ∈ a, isJSWhite c = false := by
    intro a ha
    obtain ⟨x, hx, rfl⟩ := List.mem_map.mp ha
    refine ⟨?_, fun c hc => (hchars x hx c hc).2⟩
    intro hempty
    have h1 := hinv x hx
    rw [hempty] at h1
    have h2 := hnan x hx
    rw [← h1] at h2
    exact absurd h2 (by decide)
  rw [parseCSV_eq_filter]
  unfold csvTokens exportCsv
  rw [trim_join _ _ hstrs, tokenValues_join toStr data hnan hinv hchars]
  exact List.take_of_length_le hlen

/-- C5, at the dataset `3, -12, 0.5, 7.25` and the strings `showNumber` gives them; the exported
text is `3,\n-12,\n0.5,\n7.25`. -/
theorem parseCSV_exportCsv_witness :
    exportCsv showNumber [JSNum.fin 3, JSNum.fin (-12), JSNum.fin (1 / 2), JSNum.fin (29 / 4)]
        = "3,\n-12,\n0.5,\n7.25".toList
      ∧ parseCSV
          (exportCsv showNumber [JSNum.fin 3, JSNum.fin (-12), JSNum.fin (1 / 2), JSNum.fin (29 / 4)])
        = [JSNum.fin 3, JSNum.fin (-12), JSNum.fin (1 / 2), JSNum.fin (29 / 4)] :=
  ⟨by decide!,
    parseCSV_exportCsv showNumber
      [JSNum.fin 3, JSNum.fin (-12), JSNum.fin (1 / 2), JSNum.fin (29 / 4)]
      (by decide) (by decide!) (by decide!) (by decide!)⟩

/-- C6, as stated, fails: the token `Infinity` is not a finite number, yet `parseCSV` returns its
value, so the result is not the list of finite token values and holds a non-finite element. -/
theorem parseCSV_keeps_infinity :
    parseCSV "1, Infinity, abc, -Infinity".toList = [JSNum.fin 1, JSNum.pinf, JSNum.ninf]
      ∧ finiteTokenValues "1, Infinity, abc, -Infinity".toList = [JSNum.fin 1]
      ∧ parseCSV "1, Infinity, abc, -Infinity".toList
          ≠ finiteTokenValues "1, Infinity, abc, -Infinity".toList
      ∧ ∃ x ∈ parseCSV "1, Infinity, abc, -Infinity".toList, x.isFinite = false := by
  decide!

/-- C6, amended. `parseCSV` returns the first 100 values, in encounter order, of the trimmed
tokens whose `parseFloat` value is not NaN; the result has at most 100 elements, none of them NaN;
and it is the list of finite token values whenever no token evaluates to an infinity. -/
theorem parseCSV_spec (text : List Char) :
    parseCSV text = (((csvTokens text).map parseFloat).filter (fun x => !x.isNaN)).take 100
      ∧ (parseCSV text).length ≤ 100
      ∧ (∀ x ∈ parseCSV text, x.isNaN = false)
      ∧ ((∀ t ∈ csvTokens text, parseFloat t ≠ JSNum.pinf ∧ parseFloat t ≠ JSNum.ninf) →
          parseCSV text = finiteTokenValues text) := by
  refine ⟨parseCSV_eq_filter text, ?_, ?_, ?_⟩
  · rw [parseCSV_eq_filter]
    exact List.length_take_le _ _
  · intro x hx
    rw [parseCSV_eq_filter] at hx
    have := (List.mem_filter.mp (List.mem_of_mem_take hx)).2
    simpa using this
  · intro hinf
    rw [parseCSV_eq_filter]
    unfold finiteTokenValues
    congr 1
    apply List.filter_congr
    intro x hx
    obtain ⟨t, ht, rfl⟩ := List.mem_map.mp hx
    have := hinf t ht
    cases hp : parseFloat t <;> simp_all [JSNum.isNaN, JSNum.isFinite]

theorem calculateStats_eq_none_iff (M : MathFns) (data : List JSNum) :
    calculateStats M data = none ↔ data = [] := by
  unfold calculateStats
  cases data with
  | nil => simp
  | cons x xs => simp

/-- C7. Empty input fails safely: `parseCSV` of the empty text, and of any text none of whose
tokens has a value, is empty; `calculateStats` returns `null` exactly on the empty array; and
`runSimulation` with `stats` null returns at once, drawing nothing and leaving the state as it
was — in particular right after the empty text was parsed. -/
theorem empty_input_is_safe :
    parseCSV [] = []
      ∧ (∀ text, (∀ t ∈ csvTokens text, (parseFloat t).isNaN = true) → parseCSV text = [])
      ∧ (∀ M data, calculateStats M data = none ↔ data = [])
      ∧ (∀ M rand s calls, s.stats = none →
          runSimulation M rand s calls = Except.ok (s, calls))
      ∧ (∀ (M : MathFns) (rand : Nat → ℚ) (s : State) (calls : Nat),
          runSimulation M rand (handleManualInput M { s with csvData := [] }) calls
            = Except.ok (handleManualInput M { s with csvData := [] }, calls)) := by
  have hrun : ∀ M rand (s : State) calls, s.stats = none →
      runSimulation M rand s calls = Except.ok (s, calls) := by
    intro M rand s calls h
    unfold runSimulation
    rw [h]
  have hstats : ∀ M data, calculateStats M data = none ↔ data = [] :=
    calculateStats_eq_none_iff
  refine ⟨by decide, ?_, hstats, hrun, ?_⟩
  · intro text h
    rw [parseCSV_eq_filter]
    have : ((csvTokens text).map parseFloat).filter (fun x => !x.isNaN) = [] := by
      rw [List.filter_eq_nil_iff]
      intro x hx
      obtain ⟨t, ht, rfl⟩ := List.mem_map.mp hx
      simp [h t ht]
    rw [this]
    rfl
  · intro M rand s calls
    apply hrun
    show calculateStats M (parseCSV []) = none
    rw [show parseCSV [] = [] by decide]
    exact (hstats M []).mpr rfl

/-! ## The loops of runSimulation -/

theorem aggregateDraw_calls (M : MathFns) (rand : Nat → ℚ) (s : State) (st : Stats) (c : Nat) :
    (aggregateDraw M rand s st c).2 = c + callsPerDraw s.distributionType := by
  unfold aggregateDraw
  cases s.distributionType <;> rfl

theorem pairedDraw_calls (M : MathFns) (rand : Nat → ℚ) (s : State) (st : Stats) (c : Nat)
    (v : JSNum) : (pairedDraw M rand s st c v).2 = c + callsPerDraw s.distributionType := by
  unfold pairedDraw
  cases s.distributionType <;> rfl

/-- The aggregate loop appends one floored draw per iteration and advances the call count. -/
theorem aggregateLoop_eq (M : MathFns) (rand : Nat → ℚ) (s : State) (st : Stats)
    (k c : Nat) (results : List JSNum) :
    aggregateLoop M rand s st k c results
      = (results ++ (List.range k).map (fun i =>
          applyMinConstraint s
            (aggregateDraw M rand s st (c + callsPerDraw s.distributionType * i)).1),
         c + callsPerDraw s.distributionType * k) := by
  induction k generalizing c results with
  | zero => simp [aggregateLoop]
  | succ k ih =>
    rw [aggregateLoop, ih, aggregateDraw_calls, List.range_succ_eq_map, List.map_cons,
      List.map_map, List.append_assoc, List.singleton_append]
    refine Prod.ext ?_ ?_
    · simp only [Nat.mul_zero, Nat.add_zero]
      congr 2
      apply List.map_congr_left
      intro i _
      simp only [Function.comp, Nat.mul_succ]
      congr 3
      omega
    · simp only [Nat.mul_succ]
      omega

theorem datasetLoop_prefix (M : MathFns) (rand : Nat → ℚ) (s : State) (st : Stats)
    (points : List JSNum) (c : Nat) (dataset : List JSNum) :
    ∃ tail, (datasetLoop M rand s st points c dataset).1 = dataset ++ tail
      ∧ tail.length = points.length := by
  induction points generalizing c dataset with
  | nil => exact ⟨[], by simp [datasetLoop]⟩
  | cons v rest ih =>
    obtain ⟨tail, h1, h2⟩ := ih (pairedDraw M rand s st c v).2
      (dataset ++ [applyMinConstraint s (pairedDraw M rand s st c v).1])
    refine ⟨applyMinConstraint s (pairedDraw M rand s st c v).1 :: tail, ?_, by simp [h2]⟩
    rw [datasetLoop, h1, List.append_assoc, List.singleton_append]

theorem datasetLoop_calls (M : MathFns) (rand : Nat → ℚ) (s : State) (st : Stats)
    (points : List JSNum) (c : Nat) (dataset : List JSNum) :
    (datasetLoop M rand s st points c dataset).2
      = c + callsPerDraw s.distributionType * points.length := by
  induction points generalizing c dataset with
  | nil => simp [datasetLoop]
  | cons v rest ih =>
    rw [datasetLoop, ih, pairedDraw_calls, List.length_cons, Nat.mul_succ]
    omega

theorem datasetLoop_length (M : MathFns) (rand : Nat → ℚ) (s : State) (st : Stats)
    (points : List JSNum) (c : Nat) :
    (datasetLoop M rand s st points c []).1.length = points.length := by
  obtain ⟨tail, h1, h2⟩ := datasetLoop_prefix M rand s st points c []
  rw [h1, List.nil_append, h2]

/-- Position `j` of a generated dataset is the floored draw around point `j`. -/
theorem datasetLoop_getElem (M : MathFns) (rand : Nat → ℚ) (s : State) (st : Stats)
    (points : List JSNum) (c : Nat) (dataset : List JSNum) (j : Nat) (hj : j < points.length) :
    (datasetLoop M rand s st points c dataset).1[dataset.length + j]?
      = some (applyMinConstraint s
          (pairedDraw M rand s st (c + callsPerDraw s.distributionType * j) points[j]).1) := by
  induction points generalizing c dataset j with
  | nil => exact absurd hj (Nat.not_lt_zero j)
  | cons v rest ih =>
    rw [datasetLoop]
    cases j with
    | zero =>
      obtain ⟨tail, h1, _⟩ := datasetLoop_prefix M rand s st rest (pairedDraw M rand s st c v).2
        (dataset ++ [applyMinConstraint s (pairedDraw M rand s st c v).1])
      rw [h1, List.append_assoc, List.singleton_append, Nat.add_zero,
        List.getElem?_append_right (le_refl _)]
      simp
    | succ j =>
      have hj' : j < rest.length := Nat.lt_of_succ_lt_succ hj
      have hlen : dataset.length + (j + 1)
          = (dataset ++ [applyMinConstraint s (pairedDraw M rand s st c v).1]).length + j := by
        rw [List.length_append, List.length_singleton]
        omega
      rw [hlen, ih _ _ j hj', pairedDraw_calls]
      simp only [List.getElem_cons_succ, Nat.mul_succ]
      rw [show c + callsPerDraw s.distributionType + callsPerDraw s.distributionType * j
        = c + (callsPerDraw s.distributionType * j + callsPerDraw s.distributionType) by omega]

/-- The outer loop appends one dataset per iteration, numbered from `i + 1`. -/
theorem sampleDatasetsLoop_eq (M : MathFns) (rand : Nat → ℚ) (s : State) (st : Stats)
    (k i c : Nat) (acc : List SampleDataset) :
    sampleDatasetsLoop M rand s st k i c acc
      = (acc ++ (List.range k).map (fun t =>
          { id := i + t + 1,
            data := (datasetLoop M rand s st s.dataPoints
              (c + callsPerDraw s.distributionType * s.dataPoints.length * t) []).1,
            stats := calculateStats M (datasetLoop M rand s st s.dataPoints
              (c + callsPerDraw s.distributionType * s.dataPoints.length * t) []).1 }),
         c + callsPerDraw s.distributionType * s.dataPoints.length * k) := by
  induction k generalizing i c acc with
  | zero => simp [sampleDatasetsLoop]
  | succ k ih =>
    rw [sampleDatasetsLoop, ih, datasetLoop_calls, List.range_succ_eq_map, List.map_cons,
      List.map_map, List.append_assoc, List.singleton_append]
    refine Prod.ext ?_ ?_
    · simp only [Nat.mul_zero, Nat.add_zero]
      congr 2
      apply List.map_congr_left
      intro t _
      simp only [Function.comp, Nat.mul_succ]
      rw [show i + 1 + t + 1 = i + (t + 1) + 1 by omega,
        show c + callsPerDraw s.distributionType * s.dataPoints.length
            + callsPerDraw s.distributionType * s.dataPoints.length * t
          = c + (callsPerDraw s.distributionType * s.dataPoints.length * t
            + callsPerDraw s.distributionType * s.dataPoints.length) by omega]
    · simp only [Nat.mul_succ]
      omega

/-- A run with `stats` set and a sample count of one or more stores a result: `raw` is the
floored draws of the aggregate loop up to order, the datasets are those of the paired loop, and
the statistics and the histogram are computed from the draws. -/
theorem runSimulation_ok (M : MathFns) (rand : Nat → ℚ) (s : State) (calls : Nat) (st : Stats)
    (hst : s.stats = some st) (hn : 1 ≤ s.numSimulations) :
    ∃ res : SimulationResults,
      runSimulation M rand s calls
        = Except.ok ({ s with simulationResults := some res },
            calls + callsPerDraw s.distributionType * s.numSimulations.toNat
              + callsPerDraw s.distributionType * s.dataPoints.length * 10)
      ∧ res.raw.Perm ((List.range s.numSimulations.toNat).map (fun i =>
          applyMinConstraint s
            (aggregateDraw M rand s st (calls + callsPerDraw s.distributionType * i)).1))
      ∧ res.sampleDatasets = (List.range 10).map (fun t =>
          { id := 0 + t + 1,
            data := (datasetLoop M rand s st s.dataPoints
              (calls + callsPerDraw s.distributionType * s.numSimulations.toNat
                + callsPerDraw s.distributionType * s.dataPoints.length * t) []).1,
            stats := calculateStats M (datasetLoop M rand s st s.dataPoints
              (calls + callsPerDraw s.distributionType * s.numSimulations.toNat
                + callsPerDraw s.distributionType * s.dataPoints.length * t) []).1 })
      ∧ calculateStats M ((List.range s.numSimulations.toNat).map (fun i =>
          applyMinConstraint s
            (aggregateDraw M rand s st (calls + callsPerDraw s.distributionType * i)).1))
          = some res.stats
      ∧ res.histogram
          = histogramData res.stats
              (JSNum.div (JSNum.sub res.stats.max res.stats.min) (JSNum.ofNat numBins))
              s.numSimulations 0
              (fillBins res.stats
                (JSNum.div (JSNum.sub res.stats.max res.stats.min) (JSNum.ofNat numBins))
                ((List.range s.numSimulations.toNat).map (fun i =>
                  applyMinConstraint s
                    (aggregateDraw M rand s st
                      (calls + callsPerDraw s.distributionType * i)).1))) := by
  have hN : 0 < s.numSimulations.toNat := by omega
  have hne : (List.range s.numSimulations.toNat).map (fun i =>
      applyMinConstraint s
        (aggregateDraw M rand s st (calls + callsPerDraw s.distributionType * i)).1) ≠ [] := by
    intro h
    have := congrArg List.length h
    simp at this
    omega
  obtain ⟨simStats, hsim⟩ : ∃ x, calculateStats M ((List.range s.numSimulations.toNat).map (fun i =>
      applyMinConstraint s
        (aggregateDraw M rand s st (calls + callsPerDraw s.distributionType * i)).1)) = some x := by
    cases h : calculateStats M ((List.range s.numSimulations.toNat).map (fun i =>
      applyMinConstraint s
        (aggregateDraw M rand s st (calls + callsPerDraw s.distributionType * i)).1)) with
    | none => exact absurd ((calculateStats_eq_none_iff M _).mp h) hne
    | some x => exact ⟨x, rfl⟩
  unfold runSimulation
  rw [hst]
  simp only [aggregateLoop_eq, sampleDatasetsLoop_eq, List.nil_append, hsim]
  refine ⟨_, rfl, ?_, rfl, rfl, rfl⟩
  unfold jsSort
  exact ((((List.perm_insertionSort _ _).trans (List.perm_insertionSort _ _)).trans
    (List.perm_insertionSort _ _)).trans (List.perm_insertionSort _ _)).trans
    (List.perm_insertionSort _ _)

/-! ## The sample datasets -/

/-- The paired loop on a sample count of one or more. A run with `stats` set stores exactly 10
sample datasets with ids `1, ..., 10` in order; each dataset has the length of `dataPoints`, its
statistics are `calculateStats` of its data, and its element `j` is the floored value drawn
around `dataPoints[j]`: in normal mode `z0 * stdDev + dataPoints[j]` with the Box-Muller `z0` of
the two draws of that position, in uniform mode `r * (localMax - localMin) + localMin` with the
local range of `dataPoints[j]` and the one draw of that position. -/
theorem sampleDatasets_paired (M : MathFns) (rand : Nat → ℚ) (s : State) (calls : Nat)
    (st : Stats) (hst : s.stats = some st) (hn : 1 ≤ s.numSimulations) :
    ∃ res c, runSimulation M rand s calls = Except.ok ({ s with simulationResults := some res }, c)
      ∧ res.sampleDatasets.map (fun ds => ds.id) = [1, 2, 3, 4, 5, 6, 7, 8, 9, 10]
      ∧ ∀ ds ∈ res.sampleDatasets,
          ds.data.length = s.dataPoints.length
          ∧ ds.stats = calculateStats M ds.data
          ∧ ∀ (j : Nat) (hj : j < s.dataPoints.length),
              ∃ (k : Nat) (value : JSNum),
                k = calls + callsPerDraw s.distributionType
                  * (s.numSimulations.toNat + s.dataPoints.length * (ds.id - 1) + j)
                ∧ ds.data[j]? = some
                    (if s.useMinConstraint && value.lt s.minValueConstraint
                      then s.minValueConstraint else value)
                ∧ (s.distributionType = Distribution.normal →
                    value = JSNum.add
                      (JSNum.mul
                        (JSNum.mul
                          (mathSqrt M (JSNum.mul (JSNum.fin (-2)) (mathLog M (JSNum.fin (rand k)))))
                          (mathCos M (JSNum.mul (JSNum.mul (JSNum.fin 2) (JSNum.fin M.PI))
                            (JSNum.fin (rand (k + 1))))))
                        st.stdDev)
                      s.dataPoints[j])
                ∧ (s.distributionType = Distribution.uniform →
                    value = JSNum.add
                      (JSNum.mul (JSNum.fin (rand k))
                        (JSNum.sub
                          (mathMin
                            (JSNum.add s.dataPoints[j]
                              (JSNum.div (JSNum.sub st.max st.min) (JSNum.fin 4)))
                            st.max)
                          (mathMax
                            (JSNum.sub s.dataPoints[j]
                              (JSNum.div (JSNum.sub st.max st.min) (JSNum.fin 4)))
                            st.min)))
                      (mathMax
                        (JSNum.sub s.dataPoints[j]
                          (JSNum.div (JSNum.sub st.max st.min) (JSNum.fin 4)))
                        st.min)) := by
  obtain ⟨res, hrun, _, hsets, _, _⟩ := runSimulation_ok M rand s calls st hst hn
  refine ⟨res, _, hrun, ?_, ?_⟩
  · rw [hsets, List.map_map]
    rfl
  · intro ds hds
    rw [hsets] at hds
    obtain ⟨t, _, rfl⟩ := List.mem_map.mp hds
    refine ⟨datasetLoop_length M rand s st _ _, rfl, ?_⟩
    intro j hj
    have h := datasetLoop_getElem M rand s st s.dataPoints
      (calls + callsPerDraw s.distributionType * s.numSimulations.toNat
        + callsPerDraw s.distributionType * s.dataPoints.length * t) [] j hj
    rw [List.length_nil, Nat.zero_add] at h
    have hidx : calls + callsPerDraw s.distributionType * s.numSimulations.toNat
          + callsPerDraw s.distributionType * s.dataPoints.length * t
          + callsPerDraw s.distributionType * j
        = calls + callsPerDraw s.distributionType
          * (s.numSimulations.toNat + s.dataPoints.length * (0 + t + 1 - 1) + j) := by
      rw [show 0 + t + 1 - 1 = t by omega]
      ring
    rw [hidx] at h
    obtain ⟨k, hk⟩ : ∃ k, k = calls + callsPerDraw s.distributionType
        * (s.numSimulations.toNat + s.dataPoints.length * (0 + t + 1 - 1) + j) := ⟨_, rfl⟩
    rw [← hk] at h
    refine ⟨k, (pairedDraw M rand s st k s.dataPoints[j]).1, hk, ?_, ?_, ?_⟩
    · rw [h]
      rfl
    · intro hd
      unfold pairedDraw
      rw [hd]
      rfl
    · intro hd
      unfold pairedDraw
      rw [hd]
      rfl

/-- The paired loop at the observations `2, 4, 4, 4, 5, 5, 7, 9` with 7 uniform draws cycling
through `0, 1/2, 1/4, 3/4`: the first dataset, position by position, and the ids and lengths of
all ten. The range is 7, so the observation 2 has the local range `[2, 3.75]` and its draw `3/4`
gives `3.3125`. -/
theorem sampleDatasets_paired_example :
    (stateOf "2, 4, 4, 4, 5, 5, 7, 9" 7 Distribution.uniform true (JSNum.fin 0)).stats = some exampleStats
      ∧ (sampleDatasetsOf (runSimulation approxMath cycleRand (stateOf "2, 4, 4, 4, 5, 5, 7, 9" 7 Distribution.uniform true (JSNum.fin 0)) 0)).map
          (fun l => (l.take 1).map (fun ds => ds.data))
        = some [[JSNum.fin (53 / 16), JSNum.fin (9 / 4), JSNum.fin 4, JSNum.fin (25 / 8),
                 JSNum.fin (47 / 8), JSNum.fin (13 / 4), JSNum.fin 7, JSNum.fin (123 / 16)]]
      ∧ (sampleDatasetsOf (runSimulation approxMath cycleRand (stateOf "2, 4, 4, 4, 5, 5, 7, 9" 7 Distribution.uniform true (JSNum.fin 0)) 0)).map
          (fun l => l.map (fun ds => (ds.id, ds.data.length)))
        = some [(1, 8), (2, 8), (3, 8), (4, 8), (5, 8), (6, 8), (7, 8), (8, 8), (9, 8), (10, 8)]
      ∧ ∃ res c,
          runSimulation approxMath cycleRand (stateOf "2, 4, 4, 4, 5, 5, 7, 9" 7 Distribution.uniform true (JSNum.fin 0)) 0
            = Except.ok ({ (stateOf "2, 4, 4, 4, 5, 5, 7, 9" 7 Distribution.uniform true (JSNum.fin 0)) with simulationResults := some res }, c)
          ∧ res.sampleDatasets.map (fun ds => ds.id) = [1, 2, 3, 4, 5, 6, 7, 8, 9, 10] :=
  ⟨by decide!, by decide!, by decide!,
    (sampleDatasets_paired approxMath cycleRand (stateOf "2, 4, 4, 4, 5, 5, 7, 9" 7 Distribution.uniform true (JSNum.fin 0)) 0 exampleStats (by decide!) (by decide)).imp
      (fun _ h => h.imp (fun _ h' => ⟨h'.1, h'.2.1⟩))⟩

/-- C4, at a failing input: observations `1, 2, 3` and `numSimulations = -3` (what
`parseInt("-3") || 1000` stores). The paired loop does build its ten datasets of length 3, but
`results` is empty, `calculateStats(results)` is null and `simStats.max` throws before
`setSimulationResults` is reached: no result, hence no sample dataset, is stored. -/
theorem sampleDatasets_lost_on_throw :
    (stateOf "1, 2, 3" (-3) Distribution.uniform true (JSNum.fin 0)).dataPoints = [JSNum.fin 1, JSNum.fin 2, JSNum.fin 3]
      ∧ (stateOf "1, 2, 3" (-3) Distribution.uniform true (JSNum.fin 0)).stats.isSome = true
      ∧ (sampleDatasetsBuilt approxMath cycleRand (stateOf "1, 2, 3" (-3) Distribution.uniform true (JSNum.fin 0)) 0).map
          (fun l => l.map (fun ds => (ds.id, ds.data.length)))
        = some [(1, 3), (2, 3), (3, 3), (4, 3), (5, 3), (6, 3), (7, 3), (8, 3), (9, 3), (10, 3)]
      ∧ (sampleDatasetsBuilt approxMath cycleRand (stateOf "1, 2, 3" (-3) Distribution.uniform true (JSNum.fin 0)) 0).map
          (fun l => (l.take 1).map (fun ds => ds.data))
        = some [[JSNum.fin 1, JSNum.fin 2, JSNum.fin (21 / 8)]]
      ∧ (stateOf "1, 2, 3" (-3) Distribution.uniform true (JSNum.fin 0)).stats.map (fun st =>
          calculateStats approxMath
            (aggregateLoop approxMath cycleRand (stateOf "1, 2, 3" (-3) Distribution.uniform true (JSNum.fin 0)) st (stateOf "1, 2, 3" (-3) Distribution.uniform true (JSNum.fin 0)).numSimulations.toNat 0 []).1)
        = some none
      ∧ threw (runSimulation approxMath cycleRand (stateOf "1, 2, 3" (-3) Distribution.uniform true (JSNum.fin 0)) 0) = true
      ∧ sampleDatasetsOf (runSimulation approxMath cycleRand (stateOf "1, 2, 3" (-3) Distribution.uniform true (JSNum.fin 0)) 0) = none := by
  decide!

/-! ## The sample count -/

/-- C8, as stated, fails: with `numSimulations = 5` the run stores 5 raw samples, not the 100 a
clamp to `[100, 1000000]` would give, and with `numSimulations = -3` the run throws. -/
theorem sampleCount_not_clamped :
    (rawOf (runSimulation approxMath cycleRand
        (stateOf "1, 2, 3" 5 Distribution.uniform true (JSNum.fin 0)) 0)).map List.length = some 5
      ∧ clampSamples 5 = 100
      ∧ threw (runSimulation approxMath cycleRand
          (stateOf "1, 2, 3" (-3) Distribution.uniform true (JSNum.fin 0)) 0) = true
      ∧ clampSamples (-3) = 100 := by
  decide!

/-- C8, amended. The engine does not clamp: for every sample count of one or more and `stats`
set, `runSimulation` completes without error and stores exactly `numSimulations` raw samples; this
is the clamped count exactly when the count already lies in `[100, 1000000]`. -/
theorem sampleCount_exact (M : MathFns) (rand : Nat → ℚ) (s : State) (calls : Nat)
    (st : Stats) (hst : s.stats = some st) (hn : 1 ≤ s.numSimulations) :
    ∃ res c, runSimulation M rand s calls = Except.ok ({ s with simulationResults := some res }, c)
      ∧ (res.raw.length : Int) = s.numSimulations
      ∧ ((res.raw.length : Int) = clampSamples s.numSimulations
          ↔ (100 ≤ s.numSimulations ∧ s.numSimulations ≤ 1000000)) := by
  obtain ⟨res, hrun, hperm, _, _, _⟩ := runSimulation_ok M rand s calls st hst hn
  have hlen : (res.raw.length : Int) = s.numSimulations := by
    rw [hperm.length_eq, List.length_map, List.length_range]
    exact Int.toNat_of_nonneg (by omega)
  refine ⟨res, _, hrun, hlen, ?_⟩
  rw [hlen]
  unfold clampSamples
  omega

/-- C8 amended, at the observations `1, 2, 3` with 5 uniform draws. -/
theorem sampleCount_exact_witness :
    ∃ res c,
      runSimulation approxMath cycleRand
          (stateOf "1, 2, 3" 5 Distribution.uniform true (JSNum.fin 0)) 0
        = Except.ok
            ({ stateOf "1, 2, 3" 5 Distribution.uniform true (JSNum.fin 0) with
                simulationResults := some res }, c)
      ∧ (res.raw.length : Int)
          = (stateOf "1, 2, 3" 5 Distribution.uniform true (JSNum.fin 0)).numSimulations
      ∧ ((res.raw.length : Int)
            = clampSamples
                (stateOf "1, 2, 3" 5 Distribution.uniform true (JSNum.fin 0)).numSimulations
          ↔ (100 ≤ (stateOf "1, 2, 3" 5 Distribution.uniform true (JSNum.fin 0)).numSimulations
              ∧ (stateOf "1, 2, 3" 5 Distribution.uniform true
                  (JSNum.fin 0)).numSimulations ≤ 1000000)) :=
  sampleCount_exact approxMath cycleRand
    (stateOf "1, 2, 3" 5 Distribution.uniform true (JSNum.fin 0)) 0
    ((stateOf "1, 2, 3" 5 Distribution.uniform true (JSNum.fin 0)).stats.get (by decide!))
    (Option.some_get _).symm (by decide)

/-! ## The histogram -/

theorem mathMax_fin (a b : ℚ) : mathMax (JSNum.fin a) (JSNum.fin b) = JSNum.fin (max a b) := by
  unfold mathMax
  by_cases h : a < b
  · simp [JSNum.isNaN, JSNum.lt, h, max_eq_right h.le]
  · simp [JSNum.isNaN, JSNum.lt, h, max_eq_left (not_lt.mp h)]

theorem mathMin_fin (a b : ℚ) : mathMin (JSNum.fin a) (JSNum.fin b) = JSNum.fin (min a b) := by
  unfold mathMin
  by_cases h : b < a
  · simp [JSNum.isNaN, JSNum.lt, h, min_eq_right h.le]
  · simp [JSNum.isNaN, JSNum.lt, h, min_eq_left (not_lt.mp h)]

theorem sum_set_succ (l : List Nat) (i : Nat) (hi : i < l.length) :
    (l.set i (l.getD i 0 + 1)).sum = l.sum + 1 := by
  induction l generalizing i with
  | nil => exact absurd hi (Nat.not_lt_zero i)
  | cons a l ih =>
    cases i with
    | zero => simp; omega
    | succ i =>
      have := ih i (Nat.lt_of_succ_lt_succ hi)
      simp only [List.set_cons_succ, List.sum_cons, List.getD_cons_succ, this]
      omega

/-- An index that is a natural number within the array increments one count. -/
theorem incrementBin_sum (bins : List Nat) (k : Nat) (hk : k < bins.length) :
    (incrementBin bins (JSNum.fin (k : ℚ))).sum = bins.sum + 1
      ∧ (incrementBin bins (JSNum.fin (k : ℚ))).length = bins.length := by
  unfold incrementBin
  have hden : ((k : ℚ)).den = 1 := Rat.den_natCast k
  have hnum : ((k : ℚ)).num = (k : Int) := Rat.num_natCast k
  simp only [hden, hnum, Int.toNat_ofNat, Int.natCast_nonneg, hk, and_self, if_true]
  exact ⟨sum_set_succ bins k hk, List.length_set _ _ _⟩

/-- With a positive bin width and a finite minimum below the sample, the bin index is a natural
number below `numBins`. -/
theorem binIndex_in_range (simStats : Stats) (m w v : ℚ) (hw : 0 < w)
    (hmin : simStats.min = JSNum.fin m) (hv : m ≤ v) :
    ∃ k : Nat, k < numBins ∧ binIndex simStats (JSNum.fin w) (JSNum.fin v) = JSNum.fin (k : ℚ) := by
  have hnn : 0 ≤ (v - m) / w := div_nonneg (by linarith) hw.le
  have hfl : 0 ≤ ⌊(v - m) / w⌋ := Int.floor_nonneg.mpr hnn
  refine ⟨(min ⌊(v - m) / w⌋ 49).toNat, ?_, ?_⟩
  · unfold numBins
    omega
  · unfold binIndex numBins
    simp only [hmin, sub_fin, div_fin _ _ hw.ne', mathFloor, JSNum.ofNat, mathMin_fin]
    congr 1
    have hz : (((min ⌊(v - m) / w⌋ 49).toNat : Nat) : ℚ) = ((min ⌊(v - m) / w⌋ 49 : Int) : ℚ) := by
      rw [← Int.cast_natCast, Int.toNat_of_nonneg (by omega)]
    rw [hz, Int.cast_min]
    norm_num

/-- With a positive bin width, every finite sample at or above the minimum is counted: the counts
add up to the number of samples. -/
theorem fillBins_sum (simStats : Stats) (m w : ℚ) (hw : 0 < w)
    (hmin : simStats.min = JSNum.fin m) (qs : List ℚ) (hq : ∀ v ∈ qs, m ≤ v) :
    (fillBins simStats (JSNum.fin w) (qs.map JSNum.fin)).sum = qs.length := by
  unfold fillBins
  have key : ∀ (bins : List Nat), bins.length = numBins →
      ((qs.map JSNum.fin).foldl
          (fun bins val => incrementBin bins (binIndex simStats (JSNum.fin w) val)) bins).sum
        = bins.sum + qs.length := by
    induction qs with
    | nil => intro bins _; simp
    | cons v rest ih =>
      intro bins hlen
      obtain ⟨k, hk, hidx⟩ := binIndex_in_range simStats m w v hw hmin
        (hq v (List.mem_cons_self v rest))
      have hinc := incrementBin_sum bins k (by omega)
      rw [List.map_cons, List.foldl_cons, hidx,
        ih (fun u hu => hq u (List.mem_cons_of_mem v hu)) _ (by rw [hinc.2, hlen]), hinc.1,
        List.length_cons]
      omega
  rw [key _ (List.length_replicate _ _)]
  simp

/-- With a zero bin width no finite sample is counted: each bin index is `x / 0`, which is NaN or
an infinity, and the counts stay zero. -/
theorem fillBins_zero_width (simStats : Stats) (m : ℚ) (hmin : simStats.min = JSNum.fin m)
    (qs : List ℚ) (hq : ∀ v ∈ qs, v = m) :
    fillBins simStats (JSNum.fin 0) (qs.map JSNum.fin) = List.replicate numBins 0 := by
  unfold fillBins
  generalize List.replicate numBins 0 = bins
  induction qs generalizing bins with
  | nil => rfl
  | cons v rest ih =>
    have hv : v = m := hq v (List.mem_cons_self v rest)
    have hidx : binIndex simStats (JSNum.fin 0) (JSNum.fin v) = JSNum.nan := by
      unfold binIndex
      simp [hmin, hv, JSNum.div, mathFloor, mathMin, JSNum.isNaN]
    rw [List.map_cons, List.foldl_cons, hidx]
    exact ih (fun u hu => hq u (List.mem_cons_of_mem v hu)) bins

/-- C2, at a failing input: one observation `5`, uniform draws, 100 samples. All 100 raw samples
equal 5, the bin width is 0, every bin index is `0 / 0 = NaN`, and all 50 counts stay 0: their sum
is 0, not 100. -/
theorem histogram_loses_equal_samples :
    rawOf (runSimulation approxMath cycleRand
        (stateOf "5" 100 Distribution.uniform true (JSNum.fin 0)) 0)
      = some (List.replicate 100 (JSNum.fin 5))
    ∧ (histogramOf (runSimulation approxMath cycleRand
        (stateOf "5" 100 Distribution.uniform true (JSNum.fin 0)) 0)).map
          (fun h => h.map (fun e => e.count))
      = some (List.replicate 50 0)
    ∧ (histogramOf (runSimulation approxMath cycleRand
        (stateOf "5" 100 Distribution.uniform true (JSNum.fin 0)) 0)).map
          (fun h => (h.map (fun e => e.count)).sum)
      = some 0 := by
  decide!

/-- The value `histogramEntry` reports for bin `i`, on a finite minimum `m` and bin width `w`:
half the minimum plus `(i + 1/2) w`. -/
theorem histogramEntry_value_fin (simStats : Stats) (m w : ℚ) (n : Int) (count i : Nat)
    (hmin : simStats.min = JSNum.fin m) :
    (histogramEntry simStats (JSNum.fin w) n count i).value
      = JSNum.fin (m / 2 + ((i : ℚ) + 1 / 2) * w) := by
  unfold histogramEntry
  simp only [hmin, JSNum.ofNat, mul_fin, add_fin, div_fin _ _ (two_ne_zero)]
  congr 1
  ring

/-- C9, at a failing input: observations `10, 60`, uniform draws, 100 samples. The raw samples
have minimum 10 and maximum 47.5, so the bin width is 0.75 and bin 0 is `[10, 10.75]` with centre
10.375; the 25 samples equal to 10 are counted in entry 0, whose reported value is 5.375, below
the minimum. -/
theorem histogram_value_off_centre :
    (statsOf (runSimulation approxMath cycleRand
        (stateOf "10, 60" 100 Distribution.uniform true (JSNum.fin 0)) 0)).map
          (fun st => (st.min, st.max))
      = some (JSNum.fin 10, JSNum.fin (95 / 2))
    ∧ (histogramOf (runSimulation approxMath cycleRand
        (stateOf "10, 60" 100 Distribution.uniform true (JSNum.fin 0)) 0)).map
          (fun h => (h.take 1).map (fun e => (e.value, e.count)))
      = some [(JSNum.fin (43 / 8), 25)]
    ∧ JSNum.lt (JSNum.fin (43 / 8)) (JSNum.fin 10) = true
    ∧ (10 : ℚ) + (0 + 1 / 2) * ((95 / 2 - 10) / 50) = 83 / 8 := by
  decide!

/-! ## The floor -/

/-- What the floor does to one draw: a draw below the floor becomes the floor, any other draw is
kept; a draw that is not NaN ends at or above a finite floor. -/
theorem applyMinConstraint_spec (s : State) (f : ℚ) (huse : s.useMinConstraint = true)
    (hfloor : s.minValueConstraint = JSNum.fin f) (x : JSNum) :
    (JSNum.lt x (JSNum.fin f) = true → applyMinConstraint s x = JSNum.fin f)
      ∧ (JSNum.lt x (JSNum.fin f) = false → applyMinConstraint s x = x)
      ∧ (x.isNaN = false → JSNum.le (JSNum.fin f) (applyMinConstraint s x) = true)
      ∧ (x.isNaN = true → applyMinConstraint s x = JSNum.nan) := by
  unfold applyMinConstraint
  rw [huse, hfloor]
  cases x with
  | fin q =>
    by_cases h : q < f
    · simp [JSNum.lt, JSNum.le, JSNum.isNaN, h]
    · simp [JSNum.lt, JSNum.le, JSNum.isNaN, h, not_lt.mp h]
  | pinf => simp [JSNum.lt, JSNum.le, JSNum.isNaN]
  | ninf => simp [JSNum.lt, JSNum.le, JSNum.isNaN]
  | nan => simp [JSNum.lt, JSNum.le, JSNum.isNaN]

theorem infTimes_mul_zero (b : Bool) (q : ℚ) :
    JSNum.mul (JSNum.infTimes b q) (JSNum.fin 0) = JSNum.nan := by
  unfold JSNum.infTimes
  split_ifs <;> simp [JSNum.mul, JSNum.infTimes]

theorem nan_add (y : JSNum) : JSNum.add JSNum.nan y = JSNum.nan := by
  cases y <;> rfl

/-- Box-Muller on a zero first draw and a zero standard deviation: `Math.log(0)` is `-∞`, the
square root is `+∞`, and `∞ * cos(...) * 0` is NaN, whatever the cosine is. -/
theorem generateNormal_zero_draw (M : MathFns) (rand : Nat → ℚ) (c : Nat) (mean : JSNum)
    (h0 : rand c = 0) : (generateNormal M rand c mean (JSNum.fin 0)).1 = JSNum.nan := by
  have hlog : mathLog M (JSNum.fin 0) = JSNum.ninf := by simp [mathLog]
  have hmul : JSNum.mul (JSNum.fin (-2)) JSNum.ninf = JSNum.pinf := by
    simp [JSNum.mul, JSNum.infTimes]
  have hsqrt : mathSqrt M JSNum.pinf = JSNum.pinf := rfl
  obtain ⟨y, hy⟩ : ∃ y, mathCos M (JSNum.fin (2 * M.PI * rand (c + 1))) = JSNum.fin y := by
    simp only [mathCos]
    split_ifs
    · exact ⟨1, rfl⟩
    · exact ⟨_, rfl⟩
  unfold generateNormal
  simp only [h0, hlog, hmul, hsqrt, mul_fin, hy]
  rw [show JSNum.mul JSNum.pinf (JSNum.fin y) = JSNum.infTimes true y from rfl,
    infTimes_mul_zero, nan_add]

theorem datasetLoop_mem (M : MathFns) (rand : Nat → ℚ) (s : State) (st : Stats)
    (points : List JSNum) (c : Nat) (dataset : List JSNum) :
    ∀ x ∈ (datasetLoop M rand s st points c dataset).1,
      x ∈ dataset ∨ ∃ y, x = applyMinConstraint s y := by
  induction points generalizing c dataset with
  | nil => intro x hx; exact Or.inl hx
  | cons v rest ih =>
    intro x hx
    rw [datasetLoop] at hx
    rcases ih _ _ x hx with h | h
    · rcases List.mem_append.mp h with h1 | h1
      · exact Or.inl h1
      · exact Or.inr ⟨_, List.mem_singleton.mp h1⟩
    · exact Or.inr h

/-- What the floor guarantees: after a run with the floor enabled at a finite `f`, every raw
sample and every value of every sample dataset is at or above `f`, or is NaN. -/
theorem floor_holds_up_to_nan (M : MathFns) (rand : Nat → ℚ) (s : State) (calls : Nat)
    (st : Stats) (f : ℚ) (hst : s.stats = some st) (hn : 1 ≤ s.numSimulations)
    (huse : s.useMinConstraint = true) (hfloor : s.minValueConstraint = JSNum.fin f) :
    ∃ res c, runSimulation M rand s calls = Except.ok ({ s with simulationResults := some res }, c)
      ∧ (∀ x ∈ res.raw, x = JSNum.nan ∨ JSNum.le (JSNum.fin f) x = true)
      ∧ (∀ ds ∈ res.sampleDatasets, ∀ x ∈ ds.data,
          x = JSNum.nan ∨ JSNum.le (JSNum.fin f) x = true) := by
  have hfl : ∀ y, applyMinConstraint s y = JSNum.nan
      ∨ JSNum.le (JSNum.fin f) (applyMinConstraint s y) = true := by
    intro y
    have h := applyMinConstraint_spec s f huse hfloor y
    cases hy : y.isNaN with
    | true => exact Or.inl (h.2.2.2 hy)
    | false => exact Or.inr (h.2.2.1 hy)
  obtain ⟨res, hrun, hperm, hsets, _, _⟩ := runSimulation_ok M rand s calls st hst hn
  refine ⟨res, _, hrun, ?_, ?_⟩
  · intro x hx
    obtain ⟨i, _, rfl⟩ := List.mem_map.mp (hperm.mem_iff.mp hx)
    exact hfl _
  · intro ds hds x hx
    rw [hsets] at hds
    obtain ⟨t, _, rfl⟩ := List.mem_map.mp hds
    rcases datasetLoop_mem M rand s st _ _ [] x hx with h | ⟨y, rfl⟩
    · exact absurd h (List.not_mem_nil x)
    · exact hfl y

/-- C3, at a failing input: one observation `5` (standard deviation 0), normal draws, floor 0
enabled, 100 samples, and a first `Math.random()` of exactly 0. The first draw is NaN, the test
`NaN < 0` is false, and the NaN stays in `raw`: not every raw value is at or above the floor.
Likewise with the observation `Infinity` and uniform draws, where every draw is
`r * (∞ - ∞) + ∞ = NaN`. -/
theorem floor_misses_nan :
    (aggregateDraw approxMath zeroThenHalf
        (stateOf "5" 100 Distribution.normal true (JSNum.fin 0))
        { mean := JSNum.fin 5, stdDev := JSNum.fin 0, variance := JSNum.fin 0,
          min := JSNum.fin 5, max := JSNum.fin 5, median := JSNum.fin 5, count := 1 } 0).1
      = JSNum.nan
    ∧ (stateOf "5" 100 Distribution.normal true (JSNum.fin 0)).stats
      = some { mean := JSNum.fin 5, stdDev := JSNum.fin 0, variance := JSNum.fin 0,
               min := JSNum.fin 5, max := JSNum.fin 5, median := JSNum.fin 5, count := 1 }
    ∧ (rawOf (runSimulation approxMath zeroThenHalf
        (stateOf "5" 100 Distribution.normal true (JSNum.fin 0)) 0)).map
          (fun raw => (raw.length, raw.count JSNum.nan, raw.count (JSNum.fin 5)))
      = some (100, 1, 99)
    ∧ (rawOf (runSimulation approxMath zeroThenHalf
        (stateOf "5" 100 Distribution.normal true (JSNum.fin 0)) 0)).map
          (fun raw => raw.all (fun x => JSNum.le (JSNum.fin 0) x))
      = some false
    ∧ (rawOf (runSimulation approxMath cycleRand
        (stateOf "Infinity" 100 Distribution.uniform true (JSNum.fin 0)) 0)).map
          (fun raw => (raw.length, raw.count JSNum.nan))
      = some (100, 100) := by
  decide!

/-! ## The local range of the paired uniform mode -/

theorem localWindow_fin (st : Stats) (mn mx v : ℚ) (hmin : st.min = JSNum.fin mn)
    (hmax : st.max = JSNum.fin mx) :
    localWindow st (JSNum.fin v)
      = (JSNum.fin (max (v - (mx - mn) / 4) mn), JSNum.fin (min (v + (mx - mn) / 4) mx)) := by
  unfold localWindow
  simp only [hmin, hmax, sub_fin, add_fin, div_fin _ _ (four_ne_zero), mathMax_fin, mathMin_fin]

theorem generateUniform_fin (rand : Nat → ℚ) (c : Nat) (lo hi : ℚ) :
    generateUniform rand c (JSNum.fin lo) (JSNum.fin hi)
      = (JSNum.fin (rand c * (hi - lo) + lo), c + 1) := by
  unfold generateUniform
  simp only [sub_fin, mul_fin, add_fin]

/-- C10, as stated, fails: `parseCSV` admits the observation `Infinity`; for the observation set
`1, Infinity` and the observation `Infinity`, `localMin = Math.max(∞ - ∞, 1)` is NaN, so
`min ≤ localMin` is false and the paired uniform draw is NaN. -/
theorem localWindow_nan_at_infinity :
    parseCSV "1, Infinity".toList = [JSNum.fin 1, JSNum.pinf]
      ∧ (calculateStats approxMath (parseCSV "1, Infinity".toList)).map
          (fun st => (st.min, st.max)) = some (JSNum.fin 1, JSNum.pinf)
      ∧ (calculateStats approxMath (parseCSV "1, Infinity".toList)).map
          (fun st => localWindow st JSNum.pinf) = some (JSNum.nan, JSNum.pinf)
      ∧ (calculateStats approxMath (parseCSV "1, Infinity".toList)).map
          (fun st => JSNum.le st.min (localWindow st JSNum.pinf).1) = some false
      ∧ (calculateStats approxMath (parseCSV "1, Infinity".toList)).map
          (fun st => (pairedDraw approxMath cycleRand
            (stateOf "1, Infinity" 100 Distribution.uniform true (JSNum.fin 0)) st 0
            JSNum.pinf).1) = some JSNum.nan := by
  decide!

/-- C10, amended. With exact arithmetic and an observation set of finite numbers, the range
passed to `generateUniform` in the paired uniform mode is never inverted: with statistics `st`
and an observation `v`, `localMin = max(v - (max - min)/4, min)` and
`localMax = min(v + (max - min)/4, max)` satisfy `min ≤ localMin ≤ v ≤ localMax ≤ max`, and for
every draw `r` in `[0, 1)` the value `r * (localMax - localMin) + localMin` that `generateUniform`
(hence the paired draw) returns lies in `[localMin, localMax]`, inside `[min, max]`. -/
theorem localWindow_not_inverted (M : MathFns) (qs : List ℚ) (st : Stats)
    (hst : calculateStats M (qs.map JSNum.fin) = some st) (v : ℚ) (hv : v ∈ qs) :
    ∃ mn mx lo hi : ℚ,
      st.min = JSNum.fin mn ∧ st.max = JSNum.fin mx
      ∧ lo = max (v - (mx - mn) / 4) mn ∧ hi = min (v + (mx - mn) / 4) mx
      ∧ localWindow st (JSNum.fin v) = (JSNum.fin lo, JSNum.fin hi)
      ∧ mn ≤ lo ∧ lo ≤ v ∧ v ≤ hi ∧ hi ≤ mx
      ∧ JSNum.le st.min (localWindow st (JSNum.fin v)).1 = true
      ∧ JSNum.le (localWindow st (JSNum.fin v)).1 (JSNum.fin v) = true
      ∧ JSNum.le (JSNum.fin v) (localWindow st (JSNum.fin v)).2 = true
      ∧ JSNum.le (localWindow st (JSNum.fin v)).2 st.max = true
      ∧ ∀ (rand : Nat → ℚ) (c : Nat), 0 ≤ rand c → rand c < 1 →
          generateUniform rand c (localWindow st (JSNum.fin v)).1 (localWindow st (JSNum.fin v)).2
              = (JSNum.fin (rand c * (hi - lo) + lo), c + 1)
            ∧ lo ≤ rand c * (hi - lo) + lo ∧ rand c * (hi - lo) + lo ≤ hi
            ∧ JSNum.le (localWindow st (JSNum.fin v)).1
                (generateUniform rand c (localWindow st (JSNum.fin v)).1
                  (localWindow st (JSNum.fin v)).2).1 = true
            ∧ JSNum.le
                (generateUniform rand c (localWindow st (JSNum.fin v)).1
                  (localWindow st (JSNum.fin v)).2).1
                (localWindow st (JSNum.fin v)).2 = true
            ∧ JSNum.le st.min
                (generateUniform rand c (localWindow st (JSNum.fin v)).1
                  (localWindow st (JSNum.fin v)).2).1 = true
            ∧ JSNum.le
                (generateUniform rand c (localWindow st (JSNum.fin v)).1
                  (localWindow st (JSNum.fin v)).2).1 st.max = true
            ∧ ∀ s : State, s.distributionType = Distribution.uniform →
                (pairedDraw M rand s st c (JSNum.fin v)).1
                  = (generateUniform rand c (localWindow st (JSNum.fin v)).1
                      (localWindow st (JSNum.fin v)).2).1 := by
  have hne : qs ≠ [] := List.ne_nil_of_mem hv
  have hsl : (qs.insertionSort (· ≤ ·)).length = qs.length := List.length_insertionSort _ _
  have hs : (qs.insertionSort (· ≤ ·)).Sorted (· ≤ ·) := List.sorted_insertionSort _ _
  have hb := sorted_getD_bounds _ hs v ((List.mem_insertionSort _).mpr hv)
  rw [hsl] at hb
  rw [calculateStats_fin M qs hne] at hst
  have hmin : st.min = JSNum.fin ((qs.insertionSort (· ≤ ·)).getD 0 0) := by
    rw [← Option.some.inj hst]
  have hmax : st.max = JSNum.fin ((qs.insertionSort (· ≤ ·)).getD (qs.length - 1) 0) := by
    rw [← Option.some.inj hst]
  generalize (qs.insertionSort (· ≤ ·)).getD 0 0 = mn at hb hmin
  generalize (qs.insertionSort (· ≤ ·)).getD (qs.length - 1) 0 = mx at hb hmax
  obtain ⟨h1, h2⟩ := hb
  have hr : 0 ≤ (mx - mn) / 4 := by linarith
  have hlo1 : mn ≤ max (v - (mx - mn) / 4) mn := le_max_right _ _
  have hlo2 : max (v - (mx - mn) / 4) mn ≤ v := max_le (by linarith) h1
  have hhi1 : v ≤ min (v + (mx - mn) / 4) mx := le_min (by linarith) h2
  have hhi2 : min (v + (mx - mn) / 4) mx ≤ mx := min_le_right _ _
  refine ⟨mn, mx, max (v - (mx - mn) / 4) mn, min (v + (mx - mn) / 4) mx, hmin, hmax, rfl, rfl,
    localWindow_fin st mn mx v hmin hmax, hlo1, hlo2, hhi1, hhi2, ?_⟩
  rw [localWindow_fin st mn mx v hmin hmax, hmin, hmax]
  refine ⟨(le_fin _ _).mpr hlo1, (le_fin _ _).mpr hlo2, (le_fin _ _).mpr hhi1,
    (le_fin _ _).mpr hhi2, ?_⟩
  intro rand c hr0 hr1
  simp only [generateUniform_fin, le_fin]
  have hw : 0 ≤ min (v + (mx - mn) / 4) mx - max (v - (mx - mn) / 4) mn := by linarith
  have hd1 : max (v - (mx - mn) / 4) mn
      ≤ rand c * (min (v + (mx - mn) / 4) mx - max (v - (mx - mn) / 4) mn)
        + max (v - (mx - mn) / 4) mn := by
    nlinarith [mul_nonneg hr0 hw]
  have hd2 : rand c * (min (v + (mx - mn) / 4) mx - max (v - (mx - mn) / 4) mn)
        + max (v - (mx - mn) / 4) mn ≤ min (v + (mx - mn) / 4) mx := by
    nlinarith [mul_nonneg (sub_nonneg.mpr hr1.le) hw]
  refine ⟨trivial, hd1, hd2, hd1, hd2, le_trans hlo1 hd1, le_trans hd2 hhi2, ?_⟩
  intro s hs
  unfold pairedDraw
  rw [hs]
  simp only [localWindow_fin st mn mx v hmin hmax, generateUniform_fin]

/-- The statistics of the observations `2, 4, 4, 4, 5, 5, 7, 9`. -/
theorem calculateStats_example :
    calculateStats approxMath (([2, 4, 4, 4, 5, 5, 7, 9] : List ℚ).map JSNum.fin)
      = some exampleStats := by
  decide!

/-- C10 amended, at the observations `2, 4, 4, 4, 5, 5, 7, 9` and the observation `4`: the range
is 7, the local range is `[2.25, 5.75]`, and the draw `1/2` gives `4`. -/
theorem localWindow_not_inverted_witness :
    (4 : ℚ) ∈ ([2, 4, 4, 4, 5, 5, 7, 9] : List ℚ)
      ∧ localWindow exampleStats (JSNum.fin 4) = (JSNum.fin (9 / 4), JSNum.fin (23 / 4))
      ∧ generateUniform cycleRand 1 (JSNum.fin (9 / 4)) (JSNum.fin (23 / 4)) = (JSNum.fin 4, 2)
      ∧ ∃ mn mx lo hi : ℚ,
          exampleStats.min = JSNum.fin mn ∧ exampleStats.max = JSNum.fin mx
          ∧ lo = max (4 - (mx - mn) / 4) mn ∧ hi = min (4 + (mx - mn) / 4) mx
          ∧ localWindow exampleStats (JSNum.fin 4) = (JSNum.fin lo, JSNum.fin hi)
          ∧ mn ≤ lo ∧ lo ≤ 4 ∧ 4 ≤ hi ∧ hi ≤ mx
          ∧ JSNum.le exampleStats.min (localWindow exampleStats (JSNum.fin 4)).1 = true
          ∧ JSNum.le (localWindow exampleStats (JSNum.fin 4)).1 (JSNum.fin 4) = true
          ∧ JSNum.le (JSNum.fin 4) (localWindow exampleStats (JSNum.fin 4)).2 = true
          ∧ JSNum.le (localWindow exampleStats (JSNum.fin 4)).2 exampleStats.max = true
          ∧ ∀ (rand : Nat → ℚ) (c : Nat), 0 ≤ rand c → rand c < 1 →
              generateUniform rand c (localWindow exampleStats (JSNum.fin 4)).1
                  (localWindow exampleStats (JSNum.fin 4)).2
                  = (JSNum.fin (rand c * (hi - lo) + lo), c + 1)
                ∧ lo ≤ rand c * (hi - lo) + lo ∧ rand c * (hi - lo) + lo ≤ hi
                ∧ JSNum.le (localWindow exampleStats (JSNum.fin 4)).1
                    (generateUniform rand c (localWindow exampleStats (JSNum.fin 4)).1
                      (localWindow exampleStats (JSNum.fin 4)).2).1 = true
                ∧ JSNum.le
                    (generateUniform rand c (localWindow exampleStats (JSNum.fin 4)).1
                      (localWindow exampleStats (JSNum.fin 4)).2).1
                    (localWindow exampleStats (JSNum.fin 4)).2 = true
                ∧ JSNum.le exampleStats.min
                    (generateUniform rand c (localWindow exampleStats (JSNum.fin 4)).1
                      (localWindow exampleStats (JSNum.fin 4)).2).1 = true
                ∧ JSNum.le
                    (generateUniform rand c (localWindow exampleStats (JSNum.fin 4)).1
                      (localWindow exampleStats (JSNum.fin 4)).2).1 exampleStats.max = true
                ∧ ∀ s : State, s.distributionType = Distribution.uniform →
                    (pairedDraw approxMath rand s exampleStats c (JSNum.fin 4)).1
                      = (generateUniform rand c (localWindow exampleStats (JSNum.fin 4)).1
                          (localWindow exampleStats (JSNum.fin 4)).2).1 :=
  ⟨by decide, by decide!, by decide!,
    localWindow_not_inverted approxMath [2, 4, 4, 4, 5, 5, 7, 9] exampleStats
      calculateStats_example 4 (by decide)⟩

end MonteCarlo
